import Mathlib

/-!
# Peer-review hub: review recorder, review queue and eligibility

A shallow embedding of the server's routes `POST /api/reviews`,
`POST /api/projects`, `GET /api/projects/for-review`, `GET /api/projects/:id`
and `GET /api/dashboard` (`server/index.js`), of the parts of the Mongoose
schemas (`server/models/Review.js`, `server/models/Project.js`) that decide
whether a document is saved, and of the client's `canReview`
(`pages/ProjectDetail.js`), queue filter and ordering
(`pages/ReviewProjects.js`) and tag handlers (`pages/SubmitProject.js`).

Conventions of the embedding:

* an `ObjectId` is an opaque natural number;
* a JSON number is a rational number (`3.5` is `7/2`), an absent or `null`
  field is `none`; comparisons of numbers are exact, and the result of an
  addition or division is rounded to the nearest double (`roundDouble`);
* the persistent store is a pair of collections, each a list in insertion order;
* every `await` on the store can reject; which one does, if any, is the
  `StoreFault` of the request's environment;
* the fresh `_id` given to a new document and the clock read by the
  `timestamps` option are inputs of the request's environment.
-/

namespace PeerReview

/-! ## Values -/

/-- Identifier of a stored document. -/
abbrev ObjectId := Nat

/-- White space as removed by `String.prototype.trim` (ECMAScript WhiteSpace and
LineTerminator code points). -/
def isJsWhitespace (c : Char) : Bool :=
  c.val = 0x09 || c.val = 0x0A || c.val = 0x0B || c.val = 0x0C || c.val = 0x0D ||
  c.val = 0x20 || c.val = 0xA0 || c.val = 0x1680 ||
  (0x2000 ≤ c.val && c.val ≤ 0x200A) ||
  c.val = 0x2028 || c.val = 0x2029 || c.val = 0x202F || c.val = 0x205F ||
  c.val = 0x3000 || c.val = 0xFEFF

/-- The result of `s.trim()`: leading and trailing white space removed. -/
def jsTrim (s : String) : String :=
  ⟨((s.data.dropWhile isJsWhitespace).reverse.dropWhile isJsWhitespace).reverse⟩

/-- The value of `s.length`: the number of UTF-16 code units of `s`. -/
def jsLength (s : String) : Nat :=
  (s.data.map (fun c => if c.val < 0x10000 then 1 else 2)).sum

/-! ## Documents -/

/-- The `scores` object of a request body: each criterion is a number or absent. -/
structure ScoresInput where
  clarity : Option ℚ
  quality : Option ℚ
  originality : Option ℚ
  technical : Option ℚ
  presentation : Option ℚ
deriving DecidableEq

/-- The `scores` sub-document of a saved review. -/
structure Scores where
  clarity : ℚ
  quality : ℚ
  originality : ℚ
  technical : ℚ
  presentation : ℚ
deriving DecidableEq

/-- The `feedback` object, in a request body and in a saved review: four
optional strings. -/
structure Feedback where
  strengths : Option String
  weaknesses : Option String
  suggestions : Option String
  general : Option String
deriving DecidableEq

/-- The `status` enumeration of `reviewSchema`. -/
inductive ReviewStatus where
  | draft | submitted | approved | rejected
deriving DecidableEq

/-- A document of the `Review` collection (`reviewSchema`). -/
structure Review where
  id : ObjectId
  project : ObjectId
  reviewer : ObjectId
  scores : Scores
  feedback : Feedback
  overallRating : ℚ
  isAnonymous : Bool
  isHelpful : Bool
  helpfulCount : ℚ
  status : ReviewStatus
  createdAt : Nat
  updatedAt : Nat
deriving DecidableEq

/-- The `category` enumeration of `projectSchema`. -/
inductive Category where
  | essay | code | artwork | video | presentation | research | other
deriving DecidableEq

/-- The `status` enumeration of `projectSchema`. -/
inductive ProjectStatus where
  | pending | under_review | completed | archived
deriving DecidableEq

/-- A document of the `Project` collection (`projectSchema`). -/
structure Project where
  id : ObjectId
  title : String
  description : String
  category : Category
  tags : List String
  filePath : Option String
  fileName : Option String
  fileType : Option String
  submitter : ObjectId
  status : ProjectStatus
  reviewers : List ObjectId
  maxReviewers : ℚ
  deadline : Option Nat
  isAnonymous : Bool
  reviewCount : ℚ
  averageRating : ℚ
  createdAt : Nat
  updatedAt : Nat
deriving DecidableEq

/-- The persistent store: the two collections the review route touches. -/
structure Store where
  projects : List Project
  reviews : List Review
deriving DecidableEq

/-! ## Requests and responses -/

/-- What `jwt.verify` makes of the `Authorization` header: no token, a token
that does not verify, or a token whose payload carries `userId`. -/
inductive Token where
  | absent
  | bad
  | good (userId : ObjectId)
deriving DecidableEq

/-- The body of `POST /api/reviews`. -/
structure ReviewBody where
  projectId : ObjectId
  scores : ScoresInput
  feedback : Feedback
  overallRating : Option ℚ
deriving DecidableEq

/-- The store call of the review route that rejects, if any. -/
inductive StoreFault where
  | none
  | findOne
  | save
  | update
deriving DecidableEq

/-- What a request takes from its surroundings. -/
structure Env where
  freshId : ObjectId
  now : Nat
  fault : StoreFault
deriving DecidableEq

/-- A user reference after `populate` (or the logged-in user of the client). -/
structure PopulatedUser where
  id : ObjectId
  name : String
deriving DecidableEq

/-- A project document after `.populate('submitter', 'name')`: every stored
field, the `reviewers` ids included, and the submitter's `_id` and `name`
(`none` when no user has that id). -/
structure ProjectView where
  project : Project
  submitter : Option PopulatedUser
deriving DecidableEq

/-- A review document after `.populate('project', 'title')`: every stored field
and the project's `_id` and `title` (`none` when no project has that id). -/
structure ReviewView where
  review : Review
  project : Option (ObjectId × String)
deriving DecidableEq

/-- The payload of `GET /api/dashboard`. -/
structure Dashboard where
  submittedProjects : List Project
  assignedReviews : List ProjectView
  reviewsGiven : List ReviewView
deriving DecidableEq

/-- The JSON payload of a response. -/
inductive ResponseBody where
  | error (msg : String)
  | reviewCreated (message : String) (id : ObjectId) (projectId : ObjectId)
  | projectCreated (message : String) (id : ObjectId) (title : String)
      (status : ProjectStatus)
  | projectList (projects : List Project)
  | project (view : ProjectView)
  | dashboard (data : Dashboard)
deriving DecidableEq

/-- An HTTP response: status code and JSON payload. -/
structure Response where
  status : Nat
  body : ResponseBody
deriving DecidableEq

/-! ## The Review schema -/

/-- The validators of a `Number` path declared `min: 1, max: 5, required: true`:
the value is present, at least 1 and at most 5. -/
def scoreValid (v : Option ℚ) : Bool :=
  match v with
  | none => false
  | some q => decide (1 ≤ q) && decide (q ≤ 5)

/-- The setter of a `String` path declared `trim: true`. -/
def trimSetter (v : Option String) : Option String :=
  v.map jsTrim

/-- The validator of a `String` path declared `maxlength: 1000`; it runs on
the value the setter stored. -/
def maxlengthValid (v : Option String) : Bool :=
  match v with
  | none => true
  | some s => decide (jsLength s ≤ 1000)

/-- The `feedback` sub-document built by `new Review(...)`: every field trimmed. -/
def castFeedback (f : Feedback) : Feedback :=
  { strengths := trimSetter f.strengths
    weaknesses := trimSetter f.weaknesses
    suggestions := trimSetter f.suggestions
    general := trimSetter f.general }

/-- Document validation run by `review.save()`. -/
def feedbackValid (f : Feedback) : Bool :=
  maxlengthValid f.strengths && maxlengthValid f.weaknesses &&
  maxlengthValid f.suggestions && maxlengthValid f.general

/-- The document `new Review({project, reviewer, scores, feedback, overallRating,
isAnonymous: true})` if it passes the schema's validation, `none` when
validation throws. -/
def newReview (env : Env) (userId : ObjectId) (body : ReviewBody) : Option Review :=
  match body.scores.clarity, body.scores.quality, body.scores.originality,
        body.scores.technical, body.scores.presentation, body.overallRating with
  | some c, some q, some o, some t, some p, some r =>
    if scoreValid (some c) && scoreValid (some q) && scoreValid (some o) &&
       scoreValid (some t) && scoreValid (some p) && scoreValid (some r) &&
       feedbackValid (castFeedback body.feedback) then
      some
        { id := env.freshId
          project := body.projectId
          reviewer := userId
          scores := ⟨c, q, o, t, p⟩
          feedback := castFeedback body.feedback
          overallRating := r
          isAnonymous := true
          isHelpful := false
          helpfulCount := 0
          status := ReviewStatus.submitted
          createdAt := env.now
          updatedAt := env.now }
    else none
  | _, _, _, _, _, _ => none

/-! ## Store operations -/

/-- The query `Review.findOne({ project, reviewer })`. -/
def findOneReview (s : Store) (project reviewer : ObjectId) : Option Review :=
  s.reviews.find? (fun r => r.project == project && r.reviewer == reviewer)

/-- The update `Project.findByIdAndUpdate(id, { $push: { reviewers: userId } })`:
the first project with that `_id` gets `userId` appended to `reviewers` (and
its `updatedAt` refreshed); no project with that `_id` is not an error. -/
def findByIdAndPushReviewer (now : Nat) (id userId : ObjectId) :
    List Project → List Project
  | [] => []
  | p :: ps =>
    if p.id = id then
      { p with reviewers := p.reviewers ++ [userId], updatedAt := now } :: ps
    else p :: findByIdAndPushReviewer now id userId ps

/-- The query `Project.findById(id)`. -/
def findProjectById (s : Store) (id : ObjectId) : Option Project :=
  s.projects.find? (fun p => p.id == id)

/-! ## The route -/

/-- The 401 of `authenticateToken`. -/
def tokenRequired : Response := ⟨401, .error "Access token required"⟩

/-- The 403 of `authenticateToken`. -/
def invalidToken : Response := ⟨403, .error "Invalid token"⟩

/-- The 400 of the `existingReview` check. -/
def alreadyReviewed : Response := ⟨400, .error "You have already reviewed this project"⟩

/-- The 500 of the route's `catch` block. -/
def failedToSubmit : Response := ⟨500, .error "Failed to submit review"⟩

/-- The 201 of a recorded review. -/
def reviewSubmitted (r : Review) : Response :=
  ⟨201, .reviewCreated "Review submitted successfully" r.id r.project⟩

/-- The middleware `authenticateToken`: the user id to continue with, or the
response that ends the request. -/
def authenticateToken (t : Token) : Except Response ObjectId :=
  match t with
  | .absent => .error tokenRequired
  | .bad => .error invalidToken
  | .good userId => .ok userId

/-- The handler of `POST /api/reviews`, after and including `authenticateToken`:
the store it leaves and the response it sends. -/
def postReviews (env : Env) (t : Token) (body : ReviewBody) (s : Store) :
    Store × Response :=
  match authenticateToken t with
  | .error resp => (s, resp)
  | .ok userId =>
    if env.fault = StoreFault.findOne then (s, failedToSubmit)
    else
      match findOneReview s body.projectId userId with
      | some _ => (s, alreadyReviewed)
      | none =>
        match newReview env userId body with
        | none => (s, failedToSubmit)
        | some review =>
          if env.fault = StoreFault.save then (s, failedToSubmit)
          else
            let s1 : Store := { s with reviews := s.reviews ++ [review] }
            if env.fault = StoreFault.update then (s1, failedToSubmit)
            else
              ({ s1 with projects :=
                  findByIdAndPushReviewer env.now body.projectId userId s1.projects },
               reviewSubmitted review)

/-- One request to `POST /api/reviews`. -/
structure ReviewRequest where
  env : Env
  token : Token
  body : ReviewBody
deriving DecidableEq

/-- The store after a sequence of review submissions handled one at a time. -/
def runReviews (s : Store) (reqs : List ReviewRequest) : Store :=
  reqs.foldl (fun st r => (postReviews r.env r.token r.body st).1) s

/-- The reviews of the store that are for `project` and by `reviewer`. -/
def reviewsOf (s : Store) (project reviewer : ObjectId) : List Review :=
  s.reviews.filter (fun r => r.project == project && r.reviewer == reviewer)

/-- The reviews of the store that reference `project`. -/
def reviewsFor (s : Store) (project : ObjectId) : List Review :=
  s.reviews.filter (fun r => r.project == project)


/-! ## Project submission -/

/-- The fields of the multipart body of `POST /api/projects`, and the path
under which multer stored the uploaded file, if one was sent. -/
structure ProjectBody where
  title : Option String
  description : Option String
  tags : Option String
  category : Option String
  file : Option String
deriving DecidableEq

/-- The pieces of a text between its commas: `text.split(',')`. -/
def splitComma : List Char → List (List Char)
  | [] => [[]]
  | c :: cs =>
    if c = ',' then [] :: splitComma cs
    else
      match splitComma cs with
      | [] => [[c]]
      | w :: ws => (c :: w) :: ws

/-- The handler's `tags ? tags.split(',').map(tag => tag.trim()) : []`. -/
def parseTags (tags : Option String) : List String :=
  match tags with
  | none => []
  | some t => if t = "" then [] else (splitComma t.data).map (fun w => jsTrim ⟨w⟩)

/-- The string that names a category in JSON. -/
def Category.name : Category → String
  | .essay => "essay"
  | .code => "code"
  | .artwork => "artwork"
  | .video => "video"
  | .presentation => "presentation"
  | .research => "research"
  | .other => "other"

/-- The `category` path: `default: 'other'` when absent, otherwise the value
must be one of the `enum`. -/
def castCategory (c : Option String) : Option Category :=
  match c with
  | none => some Category.other
  | some s =>
    [Category.essay, Category.code, Category.artwork, Category.video,
      Category.presentation, Category.research, Category.other].find?
      (fun k => k.name == s)

/-- A `String` path declared `required: true, trim: true, maxlength: n`: the
stored value, or `none` when a validator fails. -/
def requiredText (n : Nat) (v : Option String) : Option String :=
  match v with
  | none => none
  | some s => if jsTrim s ≠ "" ∧ jsLength (jsTrim s) ≤ n then some (jsTrim s) else none

/-- The document `new Project({title, description, tags, category, filePath,
submitter, status: 'pending'})` if it passes the schema's validation. -/
def newProject (env : Env) (userId : ObjectId) (body : ProjectBody) : Option Project :=
  match requiredText 200 body.title, requiredText 2000 body.description,
        castCategory body.category with
  | some title, some description, some category =>
    some
      { id := env.freshId
        title := title
        description := description
        category := category
        tags := (parseTags body.tags).map jsTrim
        filePath := body.file
        fileName := none
        fileType := none
        submitter := userId
        status := ProjectStatus.pending
        reviewers := []
        maxReviewers := 3
        deadline := none
        isAnonymous := true
        reviewCount := 0
        averageRating := 0
        createdAt := env.now
        updatedAt := env.now }
  | _, _, _ => none

/-- The 500 of the project route's `catch` block. -/
def failedToSubmitProject : Response := ⟨500, .error "Failed to submit project"⟩

/-- The 201 of a stored project. -/
def projectSubmitted (p : Project) : Response :=
  ⟨201, .projectCreated "Project submitted successfully" p.id p.title p.status⟩

/-- The handler of `POST /api/projects`, after `authenticateToken` and an upload
that multer accepted: the store it leaves and the response it sends. Its one
store call is `project.save()`. -/
def postProjects (env : Env) (t : Token) (body : ProjectBody) (s : Store) :
    Store × Response :=
  match authenticateToken t with
  | .error resp => (s, resp)
  | .ok userId =>
    match newProject env userId body with
    | none => (s, failedToSubmitProject)
    | some project =>
      if env.fault = StoreFault.save then (s, failedToSubmitProject)
      else ({ s with projects := s.projects ++ [project] }, projectSubmitted project)

/-! ## Sequences of requests -/

/-- A request that can change the store. -/
inductive Request where
  | project (env : Env) (token : Token) (body : ProjectBody)
  | review (env : Env) (token : Token) (body : ReviewBody)
deriving DecidableEq

/-- The environment of a request. -/
def Request.env : Request → Env
  | .project env _ _ => env
  | .review env _ _ => env

/-- The store after one request. -/
def handle (s : Store) : Request → Store
  | .project env t body => (postProjects env t body s).1
  | .review env t body => (postReviews env t body s).1

/-- The store after a sequence of requests handled one at a time. -/
def run (s : Store) (reqs : List Request) : Store :=
  reqs.foldl handle s

/-- An id that no project of the store has and no review of the store refers to. -/
def unusedProjectId (s : Store) (id : ObjectId) : Bool :=
  s.projects.all (fun p => p.id != id) && s.reviews.all (fun r => r.project != id)

/-- A sequence of requests, run from `s`, during which no store call fails and
every new project is given an id unused so far. -/
def undisturbed (s : Store) : List Request → Bool
  | [] => true
  | q :: qs =>
    decide (q.env.fault = StoreFault.none) &&
    (match q with
      | .project env _ _ => unusedProjectId s env.freshId
      | .review _ _ _ => true) &&
    undisturbed (handle s q) qs

/-! ## The review queue -/

/-- The filter of `Project.find` in `GET /api/projects/for-review`:
`submitter: {$ne: userId}, status: 'pending', reviewers: {$nin: [userId]}`. -/
def forReviewQuery (userId : ObjectId) (p : Project) : Bool :=
  p.submitter != userId && p.status == ProjectStatus.pending &&
  !(p.reviewers.contains userId)

/-- The 500 of the queue route's `catch` block. -/
def failedToFetch : Response := ⟨500, .error "Failed to fetch projects"⟩

/-- The handler of `GET /api/projects/for-review`, after and including
`authenticateToken`; `findFails` tells whether its store call rejects. The
projects come in store order, cut by `.limit(10)`. -/
def getProjectsForReview (findFails : Bool) (t : Token) (s : Store) : Response :=
  match authenticateToken t with
  | .error resp => resp
  | .ok userId =>
    if findFails then failedToFetch
    else ⟨200, .projectList ((s.projects.filter (forReviewQuery userId)).take 10)⟩

/-- The client's `fetchProjects`: the `projects` state after the response, which
stays at its initial `[]` when the request fails. -/
def fetchProjects (resp : Response) : List Project :=
  match resp.body with
  | .projectList ps => ps
  | _ => []

/-- The queue of a user: what the client holds after fetching with that user's
token from a store that answers. -/
def queueFor (userId : ObjectId) (s : Store) : List Project :=
  fetchProjects (getProjectsForReview false (Token.good userId) s)

/-- Whether `text` begins with `pat`. -/
def startsWithChars : List Char → List Char → Bool
  | _, [] => true
  | [], _ :: _ => false
  | a :: as, b :: bs => a == b && startsWithChars as bs

/-- Whether `pat` occurs in `text` as a contiguous run. -/
def includesChars : List Char → List Char → Bool
  | [], pat => startsWithChars [] pat
  | a :: as, pat => startsWithChars (a :: as) pat || includesChars as pat

/-- The value of `text.includes(pat)`. -/
def includes (text pat : String) : Bool :=
  includesChars text.data pat.data

/-- The `matchesSearch` of the queue page; `toLowerCase` is the string method
of that name, taken as given. -/
def matchesSearch (toLowerCase : String → String) (searchTerm : String) (p : Project) :
    Bool :=
  includes (toLowerCase p.title) (toLowerCase searchTerm) ||
  includes (toLowerCase p.description) (toLowerCase searchTerm) ||
  p.tags.any (fun tag => includes (toLowerCase tag) (toLowerCase searchTerm))

/-- The `matchesCategory` of the queue page. -/
def matchesCategory (selectedCategory : String) (p : Project) : Bool :=
  selectedCategory == "" || p.category.name == selectedCategory

/-- The predicate of the `.filter(...)` of `filteredProjects`. -/
def passesFilter (toLowerCase : String → String) (searchTerm selectedCategory : String)
    (p : Project) : Bool :=
  matchesSearch toLowerCase searchTerm p && matchesCategory selectedCategory p

/-- The `.filter(...)` stage of `filteredProjects`, applied to the fetched
projects; the `.sort(...)` stage that follows only reorders its result. -/
def filterFetched (toLowerCase : String → String) (searchTerm selectedCategory : String)
    (projects : List Project) : List Project :=
  projects.filter (passesFilter toLowerCase searchTerm selectedCategory)

/-! ## Eligibility on the project page -/

/-- A review as the project page reads it: its reviewer, `none` when `populate`
left `null`. -/
structure LoadedReview where
  reviewer : Option PopulatedUser
deriving DecidableEq

/-- A project as the project page reads it: the populated submitter and the
`reviews` array, either of which the response may lack. -/
structure LoadedProject where
  id : ObjectId
  submitter : Option PopulatedUser
  reviews : Option (List LoadedReview)
deriving DecidableEq

/-- The value of `reviews.some(review => review.reviewer._id === userId)`; `none`
when reading `_id` of a missing reviewer throws. -/
def someReviewedBy (userId : ObjectId) : List LoadedReview → Option Bool
  | [] => some false
  | r :: rs =>
    match r.reviewer with
    | none => none
    | some w => if w.id = userId then some true else someReviewedBy userId rs

/-- The `canReview` of the project page, as a truth value: `project &&
project.submitter._id !== user.id && !project.reviews.some(...)`; `none` when
the expression throws a TypeError. -/
def canReview (project : Option LoadedProject) (user : PopulatedUser) : Option Bool :=
  match project with
  | none => some false
  | some p =>
    match p.submitter with
    | none => none
    | some submitter =>
      if submitter.id = user.id then some false
      else
        match p.reviews with
        | none => none
        | some rs => (someReviewedBy user.id rs).map (fun b => !b)

/-- The `project` state of the project page once `fetchProject` has stored the
payload of `GET /api/projects/:id`: the stored fields and the populated
submitter. The payload has no `reviews` key, `projectSchema` declaring no such
path, so `project.reviews` is undefined. -/
def loadProject (view : ProjectView) : LoadedProject :=
  ⟨view.project.id, view.submitter, none⟩

/-- The client's `fetchProject`: the `project` state after the response, which
stays `null` when the request fails. -/
def fetchProject (resp : Response) : Option LoadedProject :=
  match resp.body with
  | .project view => some (loadProject view)
  | _ => none

/-! ## Ordering the queue -/

/-- The method `Array.prototype.sort(compare)` for a consistent comparator: a
stable sort that puts `a` before `b` when `compare a b` is not positive. -/
def jsSort {α : Type} (compare : α → α → Int) (l : List α) : List α :=
  l.insertionSort (fun a b => compare a b ≤ 0)

/-- The comparator of `filteredProjects`: the `switch (sortBy)` on the creation
dates (as instants) or on the categories; `localeCompare` is the string
method of that name, taken as given. -/
def compareProjects (localeCompare : String → String → Int) (sortBy : String)
    (a b : Project) : Int :=
  if sortBy = "newest" then (b.createdAt : Int) - (a.createdAt : Int)
  else if sortBy = "oldest" then (a.createdAt : Int) - (b.createdAt : Int)
  else if sortBy = "category" then localeCompare a.category.name b.category.name
  else 0

/-- The initial value of the `sortBy` state. -/
def defaultSortBy : String := "newest"

/-- The `filteredProjects` of the queue page: the fetched projects filtered,
then sorted. -/
def filteredProjects (toLowerCase : String → String)
    (localeCompare : String → String → Int)
    (searchTerm selectedCategory sortBy : String) (projects : List Project) :
    List Project :=
  jsSort (compareProjects localeCompare sortBy)
    (filterFetched toLowerCase searchTerm selectedCategory projects)

/-! ## Reading a project and the dashboard -/

/-- The result of `.populate('submitter', 'name')` on a project. The further
`.populate({ path: 'reviews', ... })` of the routes names a path that
`projectSchema` does not declare; it is taken to leave the document as it is. -/
def populateSubmitter (users : List PopulatedUser) (p : Project) : ProjectView :=
  ⟨p, users.find? (fun w => w.id == p.submitter)⟩

/-- The result of `.populate('project', 'title')` on a review. -/
def populateProject (s : Store) (r : Review) : ReviewView :=
  ⟨r, (findProjectById s r.project).map (fun p => (p.id, p.title))⟩

/-- The 404 of `GET /api/projects/:id`. -/
def projectNotFound : Response := ⟨404, .error "Project not found"⟩

/-- The 500 of the `catch` block of `GET /api/projects/:id`. -/
def failedToFetchProject : Response := ⟨500, .error "Failed to fetch project"⟩

/-- The handler of `GET /api/projects/:id`, after and including
`authenticateToken`; `users` is the User collection as `populate` reads it and
`findFails` tells whether the store call rejects. -/
def getProject (findFails : Bool) (users : List PopulatedUser) (t : Token)
    (id : ObjectId) (s : Store) : Response :=
  match authenticateToken t with
  | .error resp => resp
  | .ok _ =>
    if findFails then failedToFetchProject
    else
      match findProjectById s id with
      | none => projectNotFound
      | some p => ⟨200, .project (populateSubmitter users p)⟩

/-- The query `Project.find({ submitter: userId }).sort({ createdAt: -1 })`. -/
def submittedProjects (userId : ObjectId) (s : Store) : List Project :=
  (s.projects.filter (fun p => p.submitter == userId)).insertionSort
    (fun a b => b.createdAt ≤ a.createdAt)

/-- The query `Project.find({ reviewers: { $in: [userId] } })` with the
submitter populated: the dashboard's "projects assigned for review". -/
def assignedReviews (users : List PopulatedUser) (userId : ObjectId) (s : Store) :
    List ProjectView :=
  (s.projects.filter (fun p => p.reviewers.contains userId)).map (populateSubmitter users)

/-- The query `Review.find({ reviewer: userId })` with the project populated. -/
def reviewsGiven (userId : ObjectId) (s : Store) : List ReviewView :=
  (s.reviews.filter (fun r => r.reviewer == userId)).map (populateProject s)

/-- The 500 of the `catch` block of `GET /api/dashboard`. -/
def failedToFetchDashboard : Response := ⟨500, .error "Failed to fetch dashboard data"⟩

/-- The handler of `GET /api/dashboard`, after and including `authenticateToken`;
`findFails` tells whether one of its store calls rejects. -/
def getDashboard (findFails : Bool) (users : List PopulatedUser) (t : Token)
    (s : Store) : Response :=
  match authenticateToken t with
  | .error resp => resp
  | .ok userId =>
    if findFails then failedToFetchDashboard
    else
      ⟨200, .dashboard
        ⟨submittedProjects userId s, assignedReviews users userId s, reviewsGiven userId s⟩⟩

/-! ## The tag list of the submission page -/

/-- The `tags` state after `handleAddTag` with the given `tagInput`. -/
def handleAddTag (toLowerCase : String → String) (tagInput : String)
    (tags : List String) : List String :=
  if jsTrim tagInput ≠ "" ∧ tags.length < 5 then
    if toLowerCase (jsTrim tagInput) ∈ tags then tags
    else tags ++ [toLowerCase (jsTrim tagInput)]
  else tags

/-- The `tags` state after `handleRemoveTag(tagToRemove)`. -/
def handleRemoveTag (tagToRemove : String) (tags : List String) : List String :=
  tags.filter (fun tag => tag != tagToRemove)

/-- A call of one of the two tag handlers. -/
inductive TagAction where
  | add (tagInput : String)
  | remove (tagToRemove : String)
deriving DecidableEq

/-- The `tags` state after a sequence of handler calls. -/
def applyTagActions (toLowerCase : String → String) (tags : List String)
    (actions : List TagAction) : List String :=
  actions.foldl
    (fun ts a =>
      match a with
      | .add tagInput => handleAddTag toLowerCase tagInput ts
      | .remove tagToRemove => handleRemoveTag tagToRemove ts)
    tags

/-- The characters of `tags.join(',')`. -/
def joinCommaChars : List String → List Char
  | [] => []
  | [t] => t.data
  | t :: u :: rest => t.data ++ ',' :: joinCommaChars (u :: rest)

/-- The value of `tags.join(',')`, as `onSubmit` appends it to the form. -/
def joinComma (tags : List String) : String := ⟨joinCommaChars tags⟩

/-! ## The averageScore virtual -/

/-- Rounding to the nearest integer, a tie going to the even neighbour. -/
def roundHalfEven (x : ℚ) : ℤ :=
  if x - ⌊x⌋ < 1 / 2 then ⌊x⌋
  else if 1 / 2 < x - ⌊x⌋ then ⌊x⌋ + 1
  else if ⌊x⌋ % 2 = 0 then ⌊x⌋ else ⌊x⌋ + 1

/-- The JavaScript number that an arithmetic operation returns for the exact
result `q`: the nearest IEEE 754 double, with a significand of 53 bits and
ties going to the even significand (normal range, no overflow). -/
def roundDouble (q : ℚ) : ℚ :=
  if q = 0 then 0
  else if 0 < q then
    roundHalfEven (q / 2 ^ (Int.log 2 q - 52)) * 2 ^ (Int.log 2 q - 52)
  else
    -(roundHalfEven (-q / 2 ^ (Int.log 2 (-q) - 52)) * 2 ^ (Int.log 2 (-q) - 52))

/-- The virtual `averageScore` of `reviewSchema`: `Object.values(this.scores)`
added one by one to 0 by `reduce`, the sum divided by their number, each
operation returning a double. -/
def Review.averageScore (r : Review) : ℚ :=
  roundDouble
    ([r.scores.clarity, r.scores.quality, r.scores.originality, r.scores.technical,
        r.scores.presentation].foldl (fun sum score => roundDouble (sum + score)) 0 /
      ([r.scores.clarity, r.scores.quality, r.scores.originality, r.scores.technical,
        r.scores.presentation].length : ℚ))

/-! ## Predicates used in the statements -/

/-- A submitted number below 1 or above 5. -/
def outOfRange (v : Option ℚ) : Bool :=
  match v with
  | none => false
  | some q => decide (q < 1) || decide (5 < q)

/-- A submitted number that is not an integer. -/
def nonInteger (v : Option ℚ) : Bool :=
  match v with
  | none => false
  | some q => decide (q.den ≠ 1)

/-- A number in the closed interval from 1 to 5. -/
def inRange (q : ℚ) : Prop := 1 ≤ q ∧ q ≤ 5

/-- A present text field whose trimmed value has more than 1000 code units. -/
def tooLongTrimmed (v : Option String) : Bool :=
  match v with
  | none => false
  | some s => decide (1000 < jsLength (jsTrim s))

/-- A text field that is absent, empty or white space only. -/
def blank (v : Option String) : Bool :=
  match v with
  | none => true
  | some s => decide (jsTrim s = "")

/-- The link from reviewers to reviews: each project's reviewers are pairwise
distinct and each of them has a review of that project in the store. -/
def ReviewersBacked (s : Store) : Prop :=
  ∀ p ∈ s.projects, p.reviewers.Nodup ∧
    ∀ u ∈ p.reviewers, ∃ r ∈ s.reviews, r.project = p.id ∧ r.reviewer = u

/-- The link from reviews to reviewers: project ids are pairwise distinct and
the reviewer of each review is listed on the project the review refers to,
when the store has that project. -/
def ReviewsListed (s : Store) : Prop :=
  (s.projects.map (fun p => p.id)).Nodup ∧
  ∀ r ∈ s.reviews, ∀ p ∈ s.projects, r.project = p.id → r.reviewer ∈ p.reviewers

/-- A review of project `p` by user `u` is in the store. -/
def hasReview (s : Store) (p u : ObjectId) : Prop :=
  ∃ r ∈ s.reviews, r.project = p ∧ r.reviewer = u

/-- The text `pat` occurs in `text` as a substring. -/
def occursIn (pat text : String) : Prop :=
  ∃ l r : List Char, text.data = l ++ pat.data ++ r

/-- Every field of a project other than `reviewers` and the `updatedAt` that
Mongoose maintains. -/
def Project.fixedFields (p : Project) :=
  (p.id, p.title, p.description, p.category, p.tags, p.filePath, p.fileName, p.fileType,
    p.submitter, p.status, p.maxReviewers, p.deadline, p.isAnonymous, p.reviewCount,
    p.averageRating, p.createdAt)

/-- The arithmetic mean of `overallRating` over a list of reviews. -/
def meanRating (rs : List Review) : ℚ :=
  (rs.map (fun r => r.overallRating)).sum / rs.length

/-! ## Sample data: the scenario of the specification -/

/-- User A, the submitter of the sample project. -/
def userA : ObjectId := 10

/-- User B, a reviewer. -/
def userB : ObjectId := 11

/-- User C, another reviewer. -/
def userC : ObjectId := 12

/-- Project P: created by user A, pending, not yet reviewed. -/
def projP : Project :=
  { id := 1, title := "P", description := "a project", category := Category.essay,
    tags := [], filePath := none, fileName := none, fileType := none, submitter := userA,
    status := ProjectStatus.pending, reviewers := [], maxReviewers := 3, deadline := none,
    isAnonymous := true, reviewCount := 0, averageRating := 0, createdAt := 0,
    updatedAt := 0 }

/-- The store holding project P and no review. -/
def storeP : Store := ⟨[projP], []⟩

/-- An environment with a working store. -/
def envOk (freshId now : Nat) : Env := ⟨freshId, now, StoreFault.none⟩

/-- The review body of scenario 2, with overall rating 4. -/
def bodyB : ReviewBody :=
  { projectId := 1
    scores := ⟨some 4, some 5, some 3, some 4, some 5⟩
    feedback := ⟨some "Clear writing", some "Needs more examples", none, none⟩
    overallRating := some 4 }

/-- The review body of scenario 4, with overall rating 2. -/
def bodyC : ReviewBody := { bodyB with overallRating := some 2 }

/-- The request of scenario 2: user B reviews project P. -/
def reqB : ReviewRequest := ⟨envOk 100 5, Token.good userB, bodyB⟩

/-- The request of scenario 4: user C reviews project P. -/
def reqC : ReviewRequest := ⟨envOk 101 6, Token.good userC, bodyC⟩

/-- The store after scenario 2. -/
def storeB : Store := runReviews storeP [reqB]

/-- The store after scenarios 2 and 4. -/
def storeC : Store := runReviews storeP [reqB, reqC]

/-- The review document recorded by scenario 2. -/
def reviewB : Review :=
  { id := 100, project := 1, reviewer := userB
    scores := ⟨4, 5, 3, 4, 5⟩
    feedback := ⟨some "Clear writing", some "Needs more examples", none, none⟩
    overallRating := 4, isAnonymous := true, isHelpful := false, helpfulCount := 0
    status := ReviewStatus.submitted, createdAt := 5, updatedAt := 5 }

/-- Scenario 5: the body of scenario 2 with `scores.clarity = 6`. -/
def bodySix : ReviewBody :=
  { bodyB with scores := ⟨some 6, some 5, some 3, some 4, some 5⟩ }

/-- The body of scenario 2 with the overall rating 3.5. -/
def bodyHalf : ReviewBody := { bodyB with overallRating := some (7 / 2) }

/-- The body of scenario 2 with a white-space-only `strengths`. -/
def bodyBlank : ReviewBody :=
  { bodyB with feedback := ⟨some "   ", some "Needs more examples", none, none⟩ }

/-- The body of scenario 2 addressed to project 2, which the sample store lacks. -/
def bodyNoProject : ReviewBody := { bodyB with projectId := 2 }

/-- A text of 1001 characters: 1000 letters and a trailing space. -/
def paddedText : String := ⟨List.replicate 1000 'a' ++ [' ']⟩

/-- A text of 1001 letters. -/
def longText : String := ⟨List.replicate 1001 'a'⟩

/-- The body of scenario 2 with `paddedText` as `strengths`. -/
def bodyPadded : ReviewBody :=
  { bodyB with feedback := ⟨some paddedText, some "Needs more examples", none, none⟩ }

/-- The body of scenario 2 with `longText` as `general`. -/
def bodyLong : ReviewBody :=
  { bodyB with feedback := ⟨some "Clear writing", some "Needs more examples", none, some longText⟩ }

/-- The multipart body that creates project P. -/
def projBodyP : ProjectBody := ⟨some "P", some "a project", none, some "essay", none⟩

/-- Scenario 1: user A submits project P, which gets id 1. -/
def reqNewP : Request := Request.project (envOk 1 0) (Token.good userA) projBodyP

/-- Scenario 2 as a request of a sequence. -/
def reqReviewB : Request := Request.review (envOk 100 5) (Token.good userB) bodyB

/-- Scenario 4 as a request of a sequence. -/
def reqReviewC : Request := Request.review (envOk 101 6) (Token.good userC) bodyC

/-- Scenario 2 when the store rejects the reviewers update. -/
def reqReviewBFailing : Request :=
  Request.review ⟨100, 5, StoreFault.update⟩ (Token.good userB) bodyB

/-- Project P once user B is listed as its reviewer. -/
def projPB : Project := { projP with reviewers := [userB], updatedAt := 5 }

/-- An environment whose store rejects the given call. -/
def envFailing (fault : StoreFault) : Env := ⟨100, 5, fault⟩

/-- User A as the client knows them. -/
def clientA : PopulatedUser := ⟨userA, "A"⟩

/-- User B as the client knows them. -/
def clientB : PopulatedUser := ⟨userB, "B"⟩

/-- Lower case for the letters A to Z, a stand-in for `toLowerCase` on samples. -/
def asciiLower (s : String) : String := ⟨s.data.map Char.toLower⟩

/-- Ten pending essays of user A, with ids 1 to 10. -/
def tenEssays : List Project :=
  (List.range 10).map (fun i => { projP with id := i + 1 })

/-- A pending code project of user A, with id 11. -/
def codeProject : Project := { projP with id := 11, category := Category.code }

/-- A store of eleven projects: the ten essays, then the code project. -/
def storeEleven : Store := ⟨tenEssays ++ [codeProject], []⟩

/-- The sign of the comparison of two texts, character by character. -/
def compareChars : List Char → List Char → Int
  | [], [] => 0
  | [], _ :: _ => -1
  | _ :: _, [] => 1
  | a :: as, b :: bs =>
    if a.val < b.val then -1 else if b.val < a.val then 1 else compareChars as bs

/-- A comparison of strings by code points, a stand-in for `localeCompare` on
samples. -/
def codePointCompare (s t : String) : Int :=
  compareChars s.data t.data

/-- Three fetched projects: a video created at 3, an essay created at 1 and a
code project created at 2. -/
def threeFetched : List Project :=
  [{ projP with id := 1, category := Category.video, createdAt := 3 },
   { projP with id := 2, category := Category.essay, createdAt := 1 },
   { projP with id := 3, category := Category.code, createdAt := 2 }]

/-- The User collection of the samples, as `populate` reads it. -/
def usersABC : List PopulatedUser := [clientA, clientB, ⟨userC, "C"⟩]

/-- The store after scenario 1 and a review of P like that of scenario 2, but
written by user C. -/
def storeBbyC : Store :=
  run ⟨[], []⟩ [reqNewP, Request.review (envOk 100 5) (Token.good userC) bodyB]

/-- Project P as the project page holds it after loading it before any review. -/
def loadedP : LoadedProject := loadProject (populateSubmitter usersABC projP)

/-- Project P as the project page holds it after loading it once B has
reviewed it. -/
def loadedPB : LoadedProject := loadProject (populateSubmitter usersABC projPB)

/-- A sequence of tag handler calls: adds with padding, capitals, a repetition
and a blank, then a removal and a last add. -/
def sampleTagActions : List TagAction :=
  [TagAction.add "  Lean ", TagAction.add "lean", TagAction.add "   ",
   TagAction.add "Proof Assistant", TagAction.remove "lean", TagAction.add "math"]

/-- User D, a further reviewer. -/
def userD : ObjectId := 13

/-- User E, a further reviewer. -/
def userE : ObjectId := 14

/-- Project P is submitted and then reviewed by B, C, D and E. -/
def fourReviews : List Request :=
  [reqNewP, reqReviewB, reqReviewC,
   Request.review (envOk 102 7) (Token.good userD) bodyB,
   Request.review (envOk 103 8) (Token.good userE) bodyC]

/-- The double nearest to 1.62, the number a score of 1.62 arrives as. -/
def score162 : ℚ := 1823957849085051 / 1125899906842624

/-- A review whose five criterion scores are all 1.62. -/
def reviewOdd : Review :=
  { reviewB with scores := ⟨score162, score162, score162, score162, score162⟩ }

set_option maxRecDepth 100000

/-! ## Helper lemmas -/

theorem newReview_project {env : Env} {u : ObjectId} {body : ReviewBody} {r : Review}
    (h : newReview env u body = some r) : r.project = body.projectId ∧ r.reviewer = u := by
  unfold newReview at h
  split at h
  · split at h
    · cases h; exact ⟨rfl, rfl⟩
    · cases h
  · cases h

/-- Every run of the handler either leaves the store as it was and does not
answer 201, or has passed authentication, the duplicate check and validation
and has inserted the new review. -/
theorem postReviews_cases (env : Env) (t : Token) (body : ReviewBody) (s : Store) :
    ((postReviews env t body s).1 = s ∧ 400 ≤ (postReviews env t body s).2.status) ∨
    ∃ u r, t = Token.good u ∧ findOneReview s body.projectId u = none ∧
      newReview env u body = some r ∧
      ((env.fault = StoreFault.update ∧
          postReviews env t body s = (⟨s.projects, s.reviews ++ [r]⟩, failedToSubmit)) ∨
       (env.fault = StoreFault.none ∧
          postReviews env t body s =
            (⟨findByIdAndPushReviewer env.now body.projectId u s.projects, s.reviews ++ [r]⟩,
              reviewSubmitted r))) := by
  cases t with
  | absent => left; simp [postReviews, authenticateToken, tokenRequired]
  | bad => left; simp [postReviews, authenticateToken, invalidToken]
  | good u =>
    by_cases hf : env.fault = StoreFault.findOne
    · left; simp [postReviews, authenticateToken, hf, failedToSubmit]
    · cases hfo : findOneReview s body.projectId u with
      | some r0 => left; simp [postReviews, authenticateToken, hf, hfo, alreadyReviewed]
      | none =>
        cases hn : newReview env u body with
        | none => left; simp [postReviews, authenticateToken, hf, hfo, hn, failedToSubmit]
        | some r =>
          by_cases hs : env.fault = StoreFault.save
          · left; simp [postReviews, authenticateToken, hf, hfo, hn, hs, failedToSubmit]
          · right
            refine ⟨u, r, rfl, hfo, hn, ?_⟩
            by_cases hu : env.fault = StoreFault.update
            · left; simp [postReviews, authenticateToken, hf, hfo, hn, hs, hu]
            · right
              have h0 : env.fault = StoreFault.none := by
                cases hfault : env.fault <;> simp_all
              simp [postReviews, authenticateToken, hf, hfo, hn, hs, hu, h0]


/-- The (project, reviewer) pairs of the stored reviews. -/
theorem findOneReview_none_iff (s : Store) (p u : ObjectId) :
    findOneReview s p u = none ↔ ∀ r ∈ s.reviews, ¬ (r.project = p ∧ r.reviewer = u) := by
  simp [findOneReview, List.find?_eq_none]

theorem pairs_nodup_step (env : Env) (t : Token) (body : ReviewBody) (s : Store)
    (h : (s.reviews.map (fun r => (r.project, r.reviewer))).Nodup) :
    ((postReviews env t body s).1.reviews.map (fun r => (r.project, r.reviewer))).Nodup := by
  rcases postReviews_cases env t body s with ⟨h1, _⟩ | ⟨u, r, _, hfo, hn, hc⟩
  · rw [h1]; exact h
  · have hr := newReview_project hn
    have hnew : (postReviews env t body s).1.reviews = s.reviews ++ [r] := by
      rcases hc with ⟨_, e⟩ | ⟨_, e⟩ <;> rw [e]
    rw [hnew, List.map_append, List.nodup_append]
    refine ⟨h, by simp, ?_⟩
    rw [findOneReview_none_iff] at hfo
    intro a ha hb
    simp only [List.map_cons, List.map_nil, List.mem_singleton] at hb
    rw [List.mem_map] at ha
    obtain ⟨r0, hr0, e0⟩ := ha
    subst hb
    simp only [Prod.mk.injEq] at e0
    exact hfo r0 hr0 ⟨e0.1.trans hr.1, e0.2.trans hr.2⟩

theorem pairs_nodup_run (reqs : List ReviewRequest) (s : Store)
    (h : (s.reviews.map (fun r => (r.project, r.reviewer))).Nodup) :
    ((runReviews s reqs).reviews.map (fun r => (r.project, r.reviewer))).Nodup := by
  induction reqs generalizing s with
  | nil => exact h
  | cons q qs ih =>
    simp only [runReviews, List.foldl_cons]
    exact ih _ (pairs_nodup_step q.env q.token q.body s h)

theorem filter_pair_length_le_one (l : List Review) (p u : ObjectId)
    (h : (l.map (fun r => (r.project, r.reviewer))).Nodup) :
    (l.filter (fun r => r.project == p && r.reviewer == u)).length ≤ 1 := by
  induction l with
  | nil => simp
  | cons a l ih =>
    rw [List.map_cons, List.nodup_cons] at h
    by_cases ha : a.project = p ∧ a.reviewer = u
    · have hnone : l.filter (fun r => r.project == p && r.reviewer == u) = [] := by
        rw [List.filter_eq_nil_iff]
        intro r hr hpr
        simp only [Bool.and_eq_true, beq_iff_eq] at hpr
        apply h.1
        rw [List.mem_map]
        exact ⟨r, hr, by simp [hpr.1, hpr.2, ha.1, ha.2]⟩
      simp [List.filter_cons, ha.1, ha.2, hnone]
    · have : (a.project == p && a.reviewer == u) = false := by
        simpa [Bool.and_eq_false_iff, beq_eq_false_iff_ne, not_and_or] using ha
      simp only [List.filter_cons, this]
      exact ih h.2

theorem scoreValid_some (q : ℚ) : scoreValid (some q) = true ↔ inRange q := by
  simp [scoreValid, inRange]

/-- What a review document that passed validation looks like. -/
theorem newReview_some {env : Env} {u : ObjectId} {body : ReviewBody} {r : Review}
    (h : newReview env u body = some r) :
    body.scores.clarity = some r.scores.clarity ∧
    body.scores.quality = some r.scores.quality ∧
    body.scores.originality = some r.scores.originality ∧
    body.scores.technical = some r.scores.technical ∧
    body.scores.presentation = some r.scores.presentation ∧
    body.overallRating = some r.overallRating ∧
    inRange r.scores.clarity ∧ inRange r.scores.quality ∧ inRange r.scores.originality ∧
    inRange r.scores.technical ∧ inRange r.scores.presentation ∧ inRange r.overallRating ∧
    r.feedback = castFeedback body.feedback ∧
    feedbackValid (castFeedback body.feedback) = true := by
  unfold newReview at h
  split at h
  · rename_i c q o t p rt hc hq ho ht hp hr
    split at h
    · rename_i hv
      simp only [Bool.and_eq_true, scoreValid_some] at hv
      cases h
      simp only [hc, hq, ho, ht, hp, hr, true_and]
      tauto
    · cases h
  · cases h

/-- A body whose six numbers are present and in range and whose trimmed
feedback fits gives a review document. -/
theorem newReview_of_valid (env : Env) (u : ObjectId) (body : ReviewBody)
    (c q o t p r : ℚ)
    (hc : body.scores.clarity = some c) (hq : body.scores.quality = some q)
    (ho : body.scores.originality = some o) (ht : body.scores.technical = some t)
    (hp : body.scores.presentation = some p) (hr : body.overallRating = some r)
    (vc : inRange c) (vq : inRange q) (vo : inRange o) (vt : inRange t) (vp : inRange p)
    (vr : inRange r) (hf : feedbackValid (castFeedback body.feedback) = true) :
    newReview env u body = some
      { id := env.freshId, project := body.projectId, reviewer := u
        scores := ⟨c, q, o, t, p⟩, feedback := castFeedback body.feedback
        overallRating := r, isAnonymous := true, isHelpful := false, helpfulCount := 0
        status := ReviewStatus.submitted, createdAt := env.now, updatedAt := env.now } := by
  unfold newReview
  simp only [hc, hq, ho, ht, hp, hr]
  rw [if_pos]
  simp only [Bool.and_eq_true, scoreValid_some]
  exact ⟨⟨⟨⟨⟨⟨vc, vq⟩, vo⟩, vt⟩, vp⟩, vr⟩, hf⟩

/-- The run of the handler on a request that passes every check. -/
theorem postReviews_ok (env : Env) (u : ObjectId) (body : ReviewBody) (s : Store) (r : Review)
    (hf : env.fault = StoreFault.none) (hfo : findOneReview s body.projectId u = none)
    (hn : newReview env u body = some r) :
    postReviews env (Token.good u) body s =
      (⟨findByIdAndPushReviewer env.now body.projectId u s.projects, s.reviews ++ [r]⟩,
        reviewSubmitted r) := by
  simp [postReviews, authenticateToken, hf, hfo, hn]

/-- The response of the handler is one of five; the duplicate response is
sent only when the lookup found a review of the pair. -/
theorem postReviews_response (env : Env) (t : Token) (body : ReviewBody) (s : Store) :
    (postReviews env t body s).2 = tokenRequired ∨
    (postReviews env t body s).2 = invalidToken ∨
    (postReviews env t body s).2 = failedToSubmit ∨
    (∃ r, (postReviews env t body s).2 = reviewSubmitted r) ∨
    ((postReviews env t body s).2 = alreadyReviewed ∧
      ∃ u, t = Token.good u ∧ ∃ r ∈ s.reviews, r.project = body.projectId ∧ r.reviewer = u) := by
  cases t with
  | absent => left; simp [postReviews, authenticateToken]
  | bad => right; left; simp [postReviews, authenticateToken]
  | good u =>
    by_cases hf : env.fault = StoreFault.findOne
    · right; right; left; simp [postReviews, authenticateToken, hf]
    · cases hfo : findOneReview s body.projectId u with
      | some r0 =>
        right; right; right; right
        refine ⟨by simp [postReviews, authenticateToken, hf, hfo], u, rfl, ?_⟩
        by_contra hno
        have : findOneReview s body.projectId u = none := by
          rw [findOneReview_none_iff]
          intro r hr hp
          exact hno ⟨r, hr, hp⟩
        rw [this] at hfo
        cases hfo
      | none =>
        cases hn : newReview env u body with
        | none => right; right; left; simp [postReviews, authenticateToken, hf, hfo, hn]
        | some r =>
          by_cases hs : env.fault = StoreFault.save
          · right; right; left; simp [postReviews, authenticateToken, hf, hfo, hn, hs]
          · by_cases hu : env.fault = StoreFault.update
            · right; right; left; simp [postReviews, authenticateToken, hf, hfo, hn, hs, hu]
            · right; right; right; left
              exact ⟨r, by simp [postReviews, authenticateToken, hf, hfo, hn, hs, hu]⟩

/-- The reviewers update changes `reviewers` and `updatedAt` only. -/
theorem findByIdAndPushReviewer_map {α : Type} (f : Project → α)
    (hf : ∀ (p : Project) (rs : List ObjectId) (n : Nat),
      f { p with reviewers := rs, updatedAt := n } = f p)
    (now : Nat) (id u : ObjectId) (ps : List Project) :
    (findByIdAndPushReviewer now id u ps).map f = ps.map f := by
  induction ps with
  | nil => rfl
  | cons p ps ih =>
    unfold findByIdAndPushReviewer
    split
    · simp [hf]
    · simp [ih]

/-- A run that answers 201 has passed every check and made both writes. -/
theorem postReviews_created {env : Env} {t : Token} {body : ReviewBody} {s : Store}
    (h : (postReviews env t body s).2.status = 201) :
    ∃ u r, t = Token.good u ∧ findOneReview s body.projectId u = none ∧
      newReview env u body = some r ∧
      postReviews env t body s =
        (⟨findByIdAndPushReviewer env.now body.projectId u s.projects, s.reviews ++ [r]⟩,
          reviewSubmitted r) := by
  rcases postReviews_cases env t body s with ⟨h1, h2⟩ | ⟨u, r, ht, hfo, hn, hc⟩
  · rw [h] at h2
    exact absurd h2 (by decide)
  · rcases hc with ⟨_, e⟩ | ⟨_, e⟩
    · rw [e] at h
      have h500 : failedToSubmit.status = 201 := h
      exact absurd h500 (by decide)
    · exact ⟨u, r, ht, hfo, hn, e⟩

/-- Every review of the store satisfies `P` after a request if it did before
and `P` holds of every document that passes validation. -/
theorem forall_reviews_step (P : Review → Prop)
    (hP : ∀ (env : Env) (u : ObjectId) (body : ReviewBody) (r : Review),
      newReview env u body = some r → P r)
    (env : Env) (t : Token) (body : ReviewBody) (s : Store)
    (h : ∀ r ∈ s.reviews, P r) :
    ∀ r ∈ (postReviews env t body s).1.reviews, P r := by
  rcases postReviews_cases env t body s with ⟨h1, _⟩ | ⟨u, r0, _, _, hn, hc⟩
  · rw [h1]; exact h
  · have hnew : (postReviews env t body s).1.reviews = s.reviews ++ [r0] := by
      rcases hc with ⟨_, e⟩ | ⟨_, e⟩ <;> rw [e]
    rw [hnew]
    intro r hr
    rcases List.mem_append.mp hr with hr | hr
    · exact h r hr
    · rw [List.mem_singleton] at hr
      subst hr
      exact hP env u body r hn

theorem forall_reviews_run (P : Review → Prop)
    (hP : ∀ (env : Env) (u : ObjectId) (body : ReviewBody) (r : Review),
      newReview env u body = some r → P r)
    (reqs : List ReviewRequest) (s : Store) (h : ∀ r ∈ s.reviews, P r) :
    ∀ r ∈ (runReviews s reqs).reviews, P r := by
  induction reqs generalizing s with
  | nil => exact h
  | cons q qs ih =>
    simp only [runReviews, List.foldl_cons]
    exact ih _ (forall_reviews_step P hP q.env q.token q.body s h)

/-! ## Theorems -/

/-- C1: in every state reached from a store without reviews by a sequence of
review submissions handled one at a time, each (project, reviewer) pair has
at most one Review. -/
theorem at_most_one_review_per_pair (projects : List Project) (reqs : List ReviewRequest)
    (p u : ObjectId) :
    (reviewsOf (runReviews ⟨projects, []⟩ reqs) p u).length ≤ 1 :=
  filter_pair_length_le_one _ p u (pairs_nodup_run reqs ⟨projects, []⟩ (by simp))


/-- C2: when a Review by reviewer `u` for the project of the body exists and the
store answers the lookup, a further submission by `u` for that project, with
any scores and feedback, returns the duplicate-review response and leaves the
whole store (the reviews, every project's reviewers and reviewCount) as it
was; and the handler sends that response in no other case, so it differs from
every other error response. -/
theorem duplicate_review_rejected (env : Env) (u : ObjectId) (body : ReviewBody) (s : Store)
    (hstore : env.fault ≠ StoreFault.findOne)
    (hdup : ∃ r ∈ s.reviews, r.project = body.projectId ∧ r.reviewer = u) :
    postReviews env (Token.good u) body s = (s, alreadyReviewed) ∧
    alreadyReviewed ≠ tokenRequired ∧ alreadyReviewed ≠ invalidToken ∧
    alreadyReviewed ≠ failedToSubmit ∧
    ∀ (env1 : Env) (t1 : Token) (body1 : ReviewBody) (s1 : Store),
      (postReviews env1 t1 body1 s1).2 = alreadyReviewed →
      ∃ u1, t1 = Token.good u1 ∧
        ∃ r ∈ s1.reviews, r.project = body1.projectId ∧ r.reviewer = u1 := by
  refine ⟨?_, by decide, by decide, by decide, ?_⟩
  · cases hfo : findOneReview s body.projectId u with
    | none =>
      rw [findOneReview_none_iff] at hfo
      obtain ⟨r, hr, hp⟩ := hdup
      exact absurd hp (hfo r hr)
    | some r0 => simp [postReviews, authenticateToken, hstore, hfo]
  · intro env1 t1 body1 s1 h
    rcases postReviews_response env1 t1 body1 s1 with e | e | e | ⟨r, e⟩ | ⟨_, hx⟩
    · rw [e] at h; exact absurd h (by decide)
    · rw [e] at h; exact absurd h (by decide)
    · rw [e] at h; exact absurd h (by decide)
    · rw [e] at h
      have hs : (201 : Nat) = alreadyReviewed.status := congrArg Response.status h
      exact absurd hs (by decide)
    · exact hx

/-- Scenario 3: user B, whose review of project P is stored, submits a second
one and gets the duplicate-review response; the store is unchanged. -/
theorem duplicate_review_rejected_witness :
    (envOk 102 7).fault ≠ StoreFault.findOne ∧
    (∃ r ∈ storeB.reviews, r.project = bodyC.projectId ∧ r.reviewer = userB) ∧
    postReviews (envOk 102 7) (Token.good userB) bodyC storeB = (storeB, alreadyReviewed) :=
  ⟨by decide, ⟨reviewB, by decide, by decide, by decide⟩,
    (duplicate_review_rejected (envOk 102 7) userB bodyC storeB (by decide)
      ⟨reviewB, by decide, by decide, by decide⟩).1⟩

/-- C3, at the failing input: user A, the submitter of project P, posts a valid
review of P; the handler answers 201, stores the review and appends A to the
reviewers of P. -/
theorem self_review_is_recorded :
    projP.submitter = userA ∧
    (postReviews (envOk 100 5) (Token.good userA) bodyB storeP).2.status = 201 ∧
    (postReviews (envOk 100 5) (Token.good userA) bodyB storeP).1.reviews.map
      (fun r => (r.project, r.reviewer)) = [(projP.id, userA)] ∧
    (postReviews (envOk 100 5) (Token.good userA) bodyB storeP).1.projects.map
      (fun p => (p.id, p.submitter, p.reviewers)) = [(projP.id, userA, [userA])] := by
  decide

/-- C4, at the failing input: a valid review is posted for project id 2 while
the store holds project 1 only; the handler answers 201 and stores a review
that references the missing project. -/
theorem review_of_missing_project_is_recorded :
    findProjectById storeP bodyNoProject.projectId = none ∧
    (postReviews (envOk 100 5) (Token.good userB) bodyNoProject storeP).2.status = 201 ∧
    (postReviews (envOk 100 5) (Token.good userB) bodyNoProject storeP).1.reviews.map
      (fun r => (r.project, r.reviewer)) = [(2, userB)] ∧
    (postReviews (envOk 100 5) (Token.good userB) bodyNoProject storeP).1.projects =
      storeP.projects := by
  decide

/-- C5: a submission in which one of the five criterion scores or the overall
rating is a number below 1 or above 5 fails (the response status is an error
status) and leaves the store, hence the reviews and every project's reviewers
and reviewCount, unchanged. -/
theorem out_of_range_score_rejected (env : Env) (t : Token) (body : ReviewBody) (s : Store)
    (h : outOfRange body.scores.clarity = true ∨ outOfRange body.scores.quality = true ∨
      outOfRange body.scores.originality = true ∨ outOfRange body.scores.technical = true ∨
      outOfRange body.scores.presentation = true ∨ outOfRange body.overallRating = true) :
    400 ≤ (postReviews env t body s).2.status ∧ (postReviews env t body s).1 = s := by
  rcases postReviews_cases env t body s with ⟨h1, h2⟩ | ⟨u, r, _, _, hn, _⟩
  · exact ⟨h2, h1⟩
  · exfalso
    obtain ⟨e1, e2, e3, e4, e5, e6, v1, v2, v3, v4, v5, v6, _, _⟩ := newReview_some hn
    simp only [e1, e2, e3, e4, e5, e6, outOfRange, Bool.or_eq_true, decide_eq_true_eq] at h
    unfold inRange at v1 v2 v3 v4 v5 v6
    rcases h with h | h | h | h | h | h <;> rcases h with h | h <;> linarith [v1.1, v1.2]

/-- Scenario 5: `scores.clarity = 6` is rejected and the store is unchanged. -/
theorem out_of_range_score_rejected_witness :
    outOfRange bodySix.scores.clarity = true ∧
    400 ≤ (postReviews (envOk 100 5) (Token.good userB) bodySix storeP).2.status ∧
    (postReviews (envOk 100 5) (Token.good userB) bodySix storeP).1 = storeP :=
  ⟨by decide,
    out_of_range_score_rejected (envOk 100 5) (Token.good userB) bodySix storeP
      (Or.inl (by decide))⟩

/-- C6, counterexample: the overall rating 3.5 is not an integer, yet the
submission is answered 201 and the review is stored with that rating. -/
theorem non_integer_rating_accepted :
    nonInteger bodyHalf.overallRating = true ∧
    (postReviews (envOk 100 5) (Token.good userB) bodyHalf storeP).2.status = 201 ∧
    (postReviews (envOk 100 5) (Token.good userB) bodyHalf storeP).1.reviews.map
      (fun r => r.overallRating) = [7 / 2] := by
  have hn := newReview_of_valid (envOk 100 5) userB bodyHalf 4 5 3 4 5 (7 / 2)
    rfl rfl rfl rfl rfl rfl (by norm_num [inRange]) (by norm_num [inRange])
    (by norm_num [inRange]) (by norm_num [inRange]) (by norm_num [inRange])
    (by norm_num [inRange]) (by decide)
  have hp := postReviews_ok (envOk 100 5) userB bodyHalf storeP _ rfl (by decide) hn
  refine ⟨?_, ?_, ?_⟩
  · simp only [nonInteger, bodyHalf, decide_eq_true_eq]
    norm_num
  · rw [hp]; rfl
  · rw [hp]; rfl

/-- C6, amended: in every state reached from a store without reviews by review
submissions, each stored Review has its five criterion scores and its overall
rating in the interval from 1 to 5 (integers or not). -/
theorem stored_scores_in_range (projects : List Project) (reqs : List ReviewRequest)
    (r : Review) (hr : r ∈ (runReviews ⟨projects, []⟩ reqs).reviews) :
    inRange r.scores.clarity ∧ inRange r.scores.quality ∧ inRange r.scores.originality ∧
    inRange r.scores.technical ∧ inRange r.scores.presentation ∧ inRange r.overallRating := by
  refine forall_reviews_run
    (fun r => inRange r.scores.clarity ∧ inRange r.scores.quality ∧
      inRange r.scores.originality ∧ inRange r.scores.technical ∧
      inRange r.scores.presentation ∧ inRange r.overallRating)
    ?_ reqs ⟨projects, []⟩ (by simp) r hr
  intro env u body r0 hn
  obtain ⟨_, _, _, _, _, _, v1, v2, v3, v4, v5, v6, _, _⟩ := newReview_some hn
  exact ⟨v1, v2, v3, v4, v5, v6⟩

/-- The review stored by scenario 2 has its six numbers between 1 and 5. -/
theorem stored_scores_in_range_witness :
    reviewB ∈ (runReviews ⟨[projP], []⟩ [reqB]).reviews ∧
    inRange reviewB.scores.clarity ∧ inRange reviewB.scores.quality ∧
    inRange reviewB.scores.originality ∧ inRange reviewB.scores.technical ∧
    inRange reviewB.scores.presentation ∧ inRange reviewB.overallRating :=
  ⟨by decide, stored_scores_in_range [projP] [reqB] reviewB (by decide)⟩

/-- C7, at the failing input: `feedback.strengths` is three spaces; the server
answers 201 and stores the review with the empty string as strengths. -/
theorem blank_strengths_is_recorded :
    blank bodyBlank.feedback.strengths = true ∧
    (postReviews (envOk 100 5) (Token.good userB) bodyBlank storeP).2.status = 201 ∧
    (postReviews (envOk 100 5) (Token.good userB) bodyBlank storeP).1.reviews.map
      (fun r => r.feedback.strengths) = [some ""] := by
  decide

/-- C8, counterexample: `strengths` is submitted with 1001 characters, 1000
letters and a trailing space; the submission is answered 201 and the review
is stored. -/
theorem padded_feedback_accepted :
    paddedText.length = 1001 ∧ jsLength paddedText = 1001 ∧
    bodyPadded.feedback.strengths = some paddedText ∧
    (postReviews (envOk 100 5) (Token.good userB) bodyPadded storeP).2.status = 201 ∧
    (postReviews (envOk 100 5) (Token.good userB) bodyPadded storeP).1.reviews.length = 1 := by
  decide

/-- C8, amended: a submission in which a present feedback field (strengths,
weaknesses, suggestions, general) is longer than 1000 code units after
trimming fails and leaves the store unchanged. -/
theorem oversized_trimmed_feedback_rejected (env : Env) (t : Token) (body : ReviewBody)
    (s : Store)
    (h : tooLongTrimmed body.feedback.strengths = true ∨
      tooLongTrimmed body.feedback.weaknesses = true ∨
      tooLongTrimmed body.feedback.suggestions = true ∨
      tooLongTrimmed body.feedback.general = true) :
    400 ≤ (postReviews env t body s).2.status ∧ (postReviews env t body s).1 = s := by
  rcases postReviews_cases env t body s with ⟨h1, h2⟩ | ⟨u, r, _, _, hn, _⟩
  · exact ⟨h2, h1⟩
  · exfalso
    obtain ⟨_, _, _, _, _, _, _, _, _, _, _, _, _, hv⟩ := newReview_some hn
    simp only [feedbackValid, castFeedback, Bool.and_eq_true] at hv
    obtain ⟨⟨⟨v1, v2⟩, v3⟩, v4⟩ := hv
    rcases h with h | h | h | h
    · cases hs : body.feedback.strengths with
      | none => simp [hs, tooLongTrimmed] at h
      | some x =>
        simp only [hs, tooLongTrimmed, decide_eq_true_eq] at h
        simp only [hs, trimSetter, Option.map_some', maxlengthValid, decide_eq_true_eq] at v1
        omega
    · cases hs : body.feedback.weaknesses with
      | none => simp [hs, tooLongTrimmed] at h
      | some x =>
        simp only [hs, tooLongTrimmed, decide_eq_true_eq] at h
        simp only [hs, trimSetter, Option.map_some', maxlengthValid, decide_eq_true_eq] at v2
        omega
    · cases hs : body.feedback.suggestions with
      | none => simp [hs, tooLongTrimmed] at h
      | some x =>
        simp only [hs, tooLongTrimmed, decide_eq_true_eq] at h
        simp only [hs, trimSetter, Option.map_some', maxlengthValid, decide_eq_true_eq] at v3
        omega
    · cases hs : body.feedback.general with
      | none => simp [hs, tooLongTrimmed] at h
      | some x =>
        simp only [hs, tooLongTrimmed, decide_eq_true_eq] at h
        simp only [hs, trimSetter, Option.map_some', maxlengthValid, decide_eq_true_eq] at v4
        omega

/-- A `general` feedback of 1001 letters is rejected and the store is unchanged. -/
theorem oversized_trimmed_feedback_rejected_witness :
    tooLongTrimmed bodyLong.feedback.general = true ∧
    400 ≤ (postReviews (envOk 100 5) (Token.good userB) bodyLong storeP).2.status ∧
    (postReviews (envOk 100 5) (Token.good userB) bodyLong storeP).1 = storeP :=
  ⟨by decide,
    oversized_trimmed_feedback_rejected (envOk 100 5) (Token.good userB) bodyLong storeP
      (Or.inr (Or.inr (Or.inr (by decide))))⟩

/-- C9, counterexample: the first review of the new project P is answered 201
and one Review references P afterwards, yet P.reviewCount is still 0. -/
theorem review_count_stays_zero :
    (postReviews reqB.env reqB.token reqB.body storeP).2.status = 201 ∧
    (reviewsFor (postReviews reqB.env reqB.token reqB.body storeP).1 projP.id).length = 1 ∧
    (postReviews reqB.env reqB.token reqB.body storeP).1.projects.map
      (fun p => (p.id, p.reviewCount)) = [(projP.id, 0)] := by
  decide

/-- C9, amended: a successful submission leaves the reviewCount of every
project as it was before the call, while the number of Reviews referencing the
reviewed project grows by one. -/
theorem review_count_unchanged_by_submit (env : Env) (t : Token) (body : ReviewBody)
    (s : Store) (hok : (postReviews env t body s).2.status = 201) :
    (postReviews env t body s).1.projects.map (fun p => (p.id, p.reviewCount)) =
      s.projects.map (fun p => (p.id, p.reviewCount)) ∧
    (reviewsFor (postReviews env t body s).1 body.projectId).length =
      (reviewsFor s body.projectId).length + 1 := by
  obtain ⟨u, r, _, _, hn, e⟩ := postReviews_created hok
  have hr := newReview_project hn
  rw [e]
  refine ⟨findByIdAndPushReviewer_map (fun p => (p.id, p.reviewCount))
    (fun _ _ _ => rfl) _ _ _ _, ?_⟩
  simp [reviewsFor, List.filter_append, hr.1]

/-- Scenario 2: the reviewCount of P is unchanged and one more Review references P. -/
theorem review_count_unchanged_by_submit_witness :
    (postReviews reqB.env reqB.token reqB.body storeP).2.status = 201 ∧
    (postReviews reqB.env reqB.token reqB.body storeP).1.projects.map
        (fun p => (p.id, p.reviewCount)) =
      storeP.projects.map (fun p => (p.id, p.reviewCount)) ∧
    (reviewsFor (postReviews reqB.env reqB.token reqB.body storeP).1 reqB.body.projectId).length =
      (reviewsFor storeP reqB.body.projectId).length + 1 :=
  ⟨by decide,
    review_count_unchanged_by_submit reqB.env reqB.token reqB.body storeP (by decide)⟩

/-- C10, counterexample: after the reviews of scenarios 2 and 4 (ratings 4 and
2, mean 3) the second submission is answered 201 and P.averageRating is 0. -/
theorem average_rating_stays_zero :
    (postReviews reqC.env reqC.token reqC.body storeB).2.status = 201 ∧
    (postReviews reqC.env reqC.token reqC.body storeB).1 = storeC ∧
    (reviewsFor storeC projP.id).map (fun r => r.overallRating) = [4, 2] ∧
    meanRating (reviewsFor storeC projP.id) = 3 ∧
    storeC.projects.map (fun p => (p.id, p.averageRating)) = [(projP.id, 0)] := by
  have hl : reviewsFor storeC projP.id =
      [reviewB, { reviewB with id := 101, reviewer := userC, overallRating := 2,
                               createdAt := 6, updatedAt := 6 }] := by decide
  refine ⟨by decide, by decide, by decide, ?_, by decide⟩
  rw [hl]
  norm_num [meanRating, reviewB]

/-- C10, amended: a successful submission leaves the averageRating of every
project as it was before the call, whatever the overall ratings of the
Reviews that reference it. -/
theorem average_rating_unchanged_by_submit (env : Env) (t : Token) (body : ReviewBody)
    (s : Store) (hok : (postReviews env t body s).2.status = 201) :
    (postReviews env t body s).1.projects.map (fun p => (p.id, p.averageRating)) =
      s.projects.map (fun p => (p.id, p.averageRating)) := by
  obtain ⟨u, r, _, _, _, e⟩ := postReviews_created hok
  rw [e]
  exact findByIdAndPushReviewer_map (fun p => (p.id, p.averageRating))
    (fun _ _ _ => rfl) _ _ _ _

/-- Scenario 4: the averageRating of P is the same before and after. -/
theorem average_rating_unchanged_by_submit_witness :
    (postReviews reqC.env reqC.token reqC.body storeB).2.status = 201 ∧
    (postReviews reqC.env reqC.token reqC.body storeB).1.projects.map
        (fun p => (p.id, p.averageRating)) =
      storeB.projects.map (fun p => (p.id, p.averageRating)) :=
  ⟨by decide,
    average_rating_unchanged_by_submit reqC.env reqC.token reqC.body storeB (by decide)⟩

/-! ## Helper lemmas: projects and reviewers over sequences of requests -/

theorem newProject_some {env : Env} {u : ObjectId} {body : ProjectBody} {p : Project}
    (h : newProject env u body = some p) :
    p.id = env.freshId ∧ p.reviewers = [] ∧ p.submitter = u ∧
    p.status = ProjectStatus.pending := by
  unfold newProject at h
  split at h
  · cases h; exact ⟨rfl, rfl, rfl, rfl⟩
  · cases h

/-- A project submission leaves the store as it was or appends one new project. -/
theorem postProjects_cases (env : Env) (t : Token) (body : ProjectBody) (s : Store) :
    (postProjects env t body s).1 = s ∨
    ∃ u p, t = Token.good u ∧ newProject env u body = some p ∧
      postProjects env t body s = (⟨s.projects ++ [p], s.reviews⟩, projectSubmitted p) := by
  cases t with
  | absent => left; simp [postProjects, authenticateToken]
  | bad => left; simp [postProjects, authenticateToken]
  | good u =>
    cases hn : newProject env u body with
    | none => left; simp [postProjects, authenticateToken, hn]
    | some p =>
      by_cases hs : env.fault = StoreFault.save
      · left; simp [postProjects, authenticateToken, hn, hs]
      · right
        exact ⟨u, p, rfl, hn, by simp [postProjects, authenticateToken, hn, hs]⟩

/-- Every project after the reviewers update is a project from before, or the
project with the given id with the reviewer appended. -/
theorem mem_findByIdAndPushReviewer {now : Nat} {id u : ObjectId} {ps : List Project}
    {q : Project} (h : q ∈ findByIdAndPushReviewer now id u ps) :
    q ∈ ps ∨ ∃ p ∈ ps, p.id = id ∧
      q = { p with reviewers := p.reviewers ++ [u], updatedAt := now } := by
  induction ps with
  | nil => simp [findByIdAndPushReviewer] at h
  | cons a ps ih =>
    unfold findByIdAndPushReviewer at h
    split at h
    · rename_i ha
      rcases List.mem_cons.mp h with h | h
      · right; exact ⟨a, List.mem_cons_self _ _, ha, h⟩
      · left; exact List.mem_cons_of_mem _ h
    · rcases List.mem_cons.mp h with h | h
      · left; rw [h]; exact List.mem_cons_self _ _
      · rcases ih h with h1 | ⟨p, hp, hid, hq⟩
        · left; exact List.mem_cons_of_mem _ h1
        · right; exact ⟨p, List.mem_cons_of_mem _ hp, hid, hq⟩

theorem reviewersBacked_postReviews (env : Env) (t : Token) (body : ReviewBody) (s : Store)
    (h : ReviewersBacked s) : ReviewersBacked (postReviews env t body s).1 := by
  rcases postReviews_cases env t body s with ⟨h1, _⟩ | ⟨u, r, _, hfo, hn, hc⟩
  · rw [h1]; exact h
  · have hr := newReview_project hn
    rw [findOneReview_none_iff] at hfo
    rcases hc with ⟨_, e⟩ | ⟨_, e⟩
    · rw [e]
      intro p hp
      obtain ⟨h1, h2⟩ := h p hp
      refine ⟨h1, fun w hw => ?_⟩
      obtain ⟨r0, hr0, e0⟩ := h2 w hw
      exact ⟨r0, List.mem_append_left _ hr0, e0⟩
    · rw [e]
      intro q hq
      rcases mem_findByIdAndPushReviewer hq with hq | ⟨p, hp, hid, rfl⟩
      · obtain ⟨h1, h2⟩ := h q hq
        refine ⟨h1, fun w hw => ?_⟩
        obtain ⟨r0, hr0, e0⟩ := h2 w hw
        exact ⟨r0, List.mem_append_left _ hr0, e0⟩
      · obtain ⟨h1, h2⟩ := h p hp
        have hnot : u ∉ p.reviewers := by
          intro hu
          obtain ⟨r0, hr0, e0⟩ := h2 u hu
          exact hfo r0 hr0 ⟨e0.1.trans hid, e0.2⟩
        refine ⟨?_, fun w hw => ?_⟩
        · show (p.reviewers ++ [u]).Nodup
          rw [List.nodup_append]
          refine ⟨h1, by simp, ?_⟩
          intro a ha hb
          rw [List.mem_singleton] at hb
          subst hb
          exact hnot ha
        · have hw2 : w ∈ p.reviewers ++ [u] := hw
          rcases List.mem_append.mp hw2 with hw3 | hw3
          · obtain ⟨r0, hr0, e0⟩ := h2 w hw3
            exact ⟨r0, List.mem_append_left _ hr0, e0⟩
          · rw [List.mem_singleton] at hw3
            subst hw3
            exact ⟨r, by simp, hr.1.trans hid.symm, hr.2⟩

theorem reviewersBacked_postProjects (env : Env) (t : Token) (body : ProjectBody)
    (s : Store) (h : ReviewersBacked s) : ReviewersBacked (postProjects env t body s).1 := by
  rcases postProjects_cases env t body s with h1 | ⟨u, p, _, hn, e⟩
  · rw [h1]; exact h
  · rw [e]
    intro q hq
    rcases List.mem_append.mp hq with hq | hq
    · exact h q hq
    · rw [List.mem_singleton] at hq
      subst hq
      have hp := (newProject_some hn).2.1
      rw [hp]
      exact ⟨List.nodup_nil, fun w hw => absurd hw (List.not_mem_nil w)⟩

theorem reviewersBacked_run (reqs : List Request) (s : Store) (h : ReviewersBacked s) :
    ReviewersBacked (run s reqs) := by
  induction reqs generalizing s with
  | nil => exact h
  | cons q qs ih =>
    simp only [run, List.foldl_cons]
    apply ih
    cases q with
    | project env t body => exact reviewersBacked_postProjects env t body s h
    | review env t body => exact reviewersBacked_postReviews env t body s h

theorem reviewersBacked_empty : ReviewersBacked ⟨[], []⟩ := by
  intro p hp
  exact absurd hp (List.not_mem_nil p)

/-- With pairwise distinct ids, the projects after the reviewers update are the
projects with another id and the updated project. -/
theorem mem_findByIdAndPushReviewer_nodup {now : Nat} {id u : ObjectId} {ps : List Project}
    (hnd : (ps.map (fun p => p.id)).Nodup) {q : Project}
    (h : q ∈ findByIdAndPushReviewer now id u ps) :
    (q ∈ ps ∧ q.id ≠ id) ∨ ∃ p ∈ ps, p.id = id ∧
      q = { p with reviewers := p.reviewers ++ [u], updatedAt := now } := by
  induction ps with
  | nil => simp [findByIdAndPushReviewer] at h
  | cons a ps ih =>
    rw [List.map_cons, List.nodup_cons] at hnd
    unfold findByIdAndPushReviewer at h
    split at h
    · rename_i ha
      rcases List.mem_cons.mp h with h | h
      · right; exact ⟨a, List.mem_cons_self _ _, ha, h⟩
      · left
        refine ⟨List.mem_cons_of_mem _ h, fun hq => hnd.1 ?_⟩
        rw [List.mem_map]
        exact ⟨q, h, hq.trans ha.symm⟩
    · rename_i ha
      rcases List.mem_cons.mp h with h | h
      · left; rw [h]; exact ⟨List.mem_cons_self _ _, ha⟩
      · rcases ih hnd.2 h with ⟨h1, h2⟩ | ⟨p, hp, hid, hq⟩
        · left; exact ⟨List.mem_cons_of_mem _ h1, h2⟩
        · right; exact ⟨p, List.mem_cons_of_mem _ hp, hid, hq⟩

theorem reviewsListed_postReviews (env : Env) (t : Token) (body : ReviewBody) (s : Store)
    (hf : env.fault = StoreFault.none) (h : ReviewsListed s) :
    ReviewsListed (postReviews env t body s).1 := by
  rcases postReviews_cases env t body s with ⟨h1, _⟩ | ⟨u, r, _, _, hn, hc⟩
  · rw [h1]; exact h
  · have hr := newReview_project hn
    rcases hc with ⟨hu, _⟩ | ⟨_, e⟩
    · rw [hf] at hu; cases hu
    · rw [e]
      obtain ⟨hnd, hl⟩ := h
      refine ⟨?_, ?_⟩
      · show ((findByIdAndPushReviewer env.now body.projectId u s.projects).map
          (fun p => p.id)).Nodup
        rw [findByIdAndPushReviewer_map (fun p => p.id) (fun _ _ _ => rfl)]
        exact hnd
      · intro r1 hr1 q hq hrq
        have hr1' : r1 ∈ s.reviews ++ [r] := hr1
        have hq' : q ∈ findByIdAndPushReviewer env.now body.projectId u s.projects := hq
        rcases mem_findByIdAndPushReviewer_nodup hnd hq' with ⟨hq1, hq2⟩ | ⟨p, hp, hid, rfl⟩
        · rcases List.mem_append.mp hr1' with h3 | h3
          · exact hl r1 h3 q hq1 hrq
          · rw [List.mem_singleton] at h3
            subst h3
            exact absurd (hrq.symm.trans hr.1) hq2
        · show r1.reviewer ∈ p.reviewers ++ [u]
          rcases List.mem_append.mp hr1' with h3 | h3
          · exact List.mem_append_left _ (hl r1 h3 p hp hrq)
          · rw [List.mem_singleton] at h3
            subst h3
            rw [hr.2]
            simp

theorem reviewsListed_postProjects (env : Env) (t : Token) (body : ProjectBody) (s : Store)
    (hid : unusedProjectId s env.freshId = true) (h : ReviewsListed s) :
    ReviewsListed (postProjects env t body s).1 := by
  rcases postProjects_cases env t body s with h1 | ⟨u, p, _, hn, e⟩
  · rw [h1]; exact h
  · rw [e]
    have hp := (newProject_some hn).1
    obtain ⟨hnd, hl⟩ := h
    simp only [unusedProjectId, Bool.and_eq_true, List.all_eq_true, bne_iff_ne, ne_eq] at hid
    refine ⟨?_, ?_⟩
    · show ((s.projects ++ [p]).map (fun p => p.id)).Nodup
      rw [List.map_append, List.nodup_append]
      refine ⟨hnd, by simp, ?_⟩
      intro a ha hb
      simp only [List.map_cons, List.map_nil, List.mem_singleton] at hb
      rw [List.mem_map] at ha
      obtain ⟨q, hq, hqa⟩ := ha
      exact hid.1 q hq (hqa.trans (hb.trans hp))
    · intro r hr q hq hrq
      have hq' : q ∈ s.projects ++ [p] := hq
      rcases List.mem_append.mp hq' with h3 | h3
      · exact hl r hr q h3 hrq
      · rw [List.mem_singleton] at h3
        subst h3
        exact absurd (hrq.trans hp) (hid.2 r hr)

theorem reviewsListed_run (reqs : List Request) (s : Store) (h : ReviewsListed s)
    (hu : undisturbed s reqs = true) : ReviewsListed (run s reqs) := by
  induction reqs generalizing s with
  | nil => exact h
  | cons q qs ih =>
    simp only [undisturbed, Bool.and_eq_true, decide_eq_true_eq] at hu
    obtain ⟨⟨hf, hid⟩, hrest⟩ := hu
    simp only [run, List.foldl_cons]
    apply ih _ _ hrest
    cases q with
    | project env t body => exact reviewsListed_postProjects env t body s hid h
    | review env t body => exact reviewsListed_postReviews env t body s hf h

theorem reviewsListed_empty : ReviewsListed ⟨[], []⟩ := by
  refine ⟨List.nodup_nil, ?_⟩
  intro r hr
  exact absurd hr (List.not_mem_nil r)

/-! ## Theorems on reviewers -/

/-- C11, counterexample: user A submits project P, then user B's review of P is
inserted but the reviewers update is rejected by the store; in the state
reached a Review for (P, B) exists and B is not among P's reviewers. -/
theorem review_without_reviewer_entry :
    (run ⟨[], []⟩ [reqNewP, reqReviewBFailing]).reviews.map
      (fun r => (r.project, r.reviewer)) = [(1, userB)] ∧
    (run ⟨[], []⟩ [reqNewP, reqReviewBFailing]).projects.map
      (fun p => (p.id, p.reviewers)) = [(1, [])] := by
  decide

/-- C11, amended: in every state reached from the empty store by project and
review submissions during which no store call fails (new projects getting
unused ids), for every project P of the store and every user U, U is among
P.reviewers if and only if a Review for (P, U) is in the store. -/
theorem reviewers_iff_review (reqs : List Request)
    (hu : undisturbed ⟨[], []⟩ reqs = true) (p : Project)
    (hp : p ∈ (run ⟨[], []⟩ reqs).projects) (u : ObjectId) :
    u ∈ p.reviewers ↔ hasReview (run ⟨[], []⟩ reqs) p.id u := by
  constructor
  · intro h
    exact (reviewersBacked_run reqs _ reviewersBacked_empty p hp).2 u h
  · rintro ⟨r, hr, h1, h2⟩
    rw [← h2]
    exact (reviewsListed_run reqs _ reviewsListed_empty hu).2 r hr p hp h1

/-- Scenarios 1 and 2: after B's successful review of P, B is among P's
reviewers, and a Review for (P, B) is in the store. -/
theorem reviewers_iff_review_witness :
    undisturbed ⟨[], []⟩ [reqNewP, reqReviewB] = true ∧
    { projP with reviewers := [userB], updatedAt := 5 } ∈
      (run ⟨[], []⟩ [reqNewP, reqReviewB]).projects ∧
    (userB ∈ [userB] ↔ hasReview (run ⟨[], []⟩ [reqNewP, reqReviewB]) 1 userB) :=
  ⟨by decide, by decide,
    reviewers_iff_review [reqNewP, reqReviewB] (by decide)
      { projP with reviewers := [userB], updatedAt := 5 } (by decide) userB⟩

/-- C12: in every state reached from the empty store by project and review
submissions handled one at a time, whatever store calls fail, no project's
reviewers list contains the same user twice. -/
theorem reviewers_nodup (reqs : List Request) (p : Project)
    (hp : p ∈ (run ⟨[], []⟩ reqs).projects) : p.reviewers.Nodup :=
  (reviewersBacked_run reqs _ reviewersBacked_empty p hp).1

/-- Scenarios 1 to 4, with a repeated submission by B: P's reviewers are B and
C, once each. -/
theorem reviewers_nodup_witness :
    { projP with reviewers := [userB, userC], updatedAt := 6 } ∈
      (run ⟨[], []⟩ [reqNewP, reqReviewB, reqReviewB, reqReviewC]).projects ∧
    [userB, userC].Nodup :=
  ⟨by decide,
    reviewers_nodup [reqNewP, reqReviewB, reqReviewB, reqReviewC]
      { projP with reviewers := [userB, userC], updatedAt := 6 } (by decide)⟩

/-- C13, counterexample: applied to project P whose reviewers are `[B]`, the
update for reviewer B gives `[B, B]`, not `[B]`; applied twice it gives
`[B, B, B]`, not what one application gives. -/
theorem push_reviewer_not_idempotent :
    userB ∈ projPB.reviewers ∧
    (findByIdAndPushReviewer 6 1 userB [projPB]).map (fun p => p.reviewers) =
      [[userB, userB]] ∧
    (findByIdAndPushReviewer 6 1 userB (findByIdAndPushReviewer 6 1 userB [projPB])).map
      (fun p => p.reviewers) = [[userB, userB, userB]] ∧
    findByIdAndPushReviewer 6 1 userB (findByIdAndPushReviewer 6 1 userB [projPB]) ≠
      findByIdAndPushReviewer 6 1 userB [projPB] := by
  decide

/-- C13, amended: the reviewers update appends the reviewer at the end of the
reviewers list of the project with the given id, whether or not the list
already contains that reviewer; every application makes the list one longer. -/
theorem push_reviewer_appends (now : Nat) (id u : ObjectId) (ps : List Project) :
    ((findByIdAndPushReviewer now id u ps).find? (fun p => p.id == id)).map
        (fun p => p.reviewers) =
      (ps.find? (fun p => p.id == id)).map (fun p => p.reviewers ++ [u]) := by
  induction ps with
  | nil => rfl
  | cons a ps ih =>
    unfold findByIdAndPushReviewer
    split
    · rename_i ha
      simp [List.find?_cons, ha]
    · rename_i ha
      have hb : (a.id == id) = false := by simpa using ha
      simp only [List.find?_cons, hb]
      exact ih

/-- C14, counterexample: the store rejects the reviewers update of B's review of
P; the caller gets the 500 error, the Review has been inserted and P's
reviewers are as before. -/
theorem failed_update_keeps_review :
    (postReviews (envFailing StoreFault.update) (Token.good userB) bodyB storeP).2 =
      failedToSubmit ∧
    storeP.reviews = [] ∧
    (postReviews (envFailing StoreFault.update) (Token.good userB) bodyB storeP).1.reviews =
      [reviewB] ∧
    (postReviews (envFailing StoreFault.update) (Token.good userB) bodyB storeP).1.projects =
      storeP.projects := by
  decide

/-- C14, amended: whenever the review route answers with an error, every
project is exactly as before the call; the reviews are as before too, unless
the call that failed is the reviewers update, in which case the new Review has
been inserted without the reviewer being appended. -/
theorem error_leaves_projects (env : Env) (t : Token) (body : ReviewBody) (s : Store)
    (herr : 400 ≤ (postReviews env t body s).2.status) :
    (postReviews env t body s).1.projects = s.projects ∧
    ((postReviews env t body s).1.reviews = s.reviews ∨
      (env.fault = StoreFault.update ∧
        ∃ r, (postReviews env t body s).1.reviews = s.reviews ++ [r])) ∧
    (env.fault ≠ StoreFault.update → (postReviews env t body s).1 = s) := by
  rcases postReviews_cases env t body s with ⟨h1, _⟩ | ⟨u, r, _, _, _, hc⟩
  · rw [h1]
    exact ⟨rfl, Or.inl rfl, fun _ => rfl⟩
  · rcases hc with ⟨hu, e⟩ | ⟨_, e⟩
    · rw [e]
      exact ⟨rfl, Or.inr ⟨hu, r, rfl⟩, fun hne => absurd hu hne⟩
    · rw [e] at herr
      have h201 : 400 ≤ (201 : Nat) := herr
      exact absurd h201 (by decide)

/-- A rejected `review.save()`: the caller gets the 500 error and the store is
as before. -/
theorem error_leaves_projects_witness :
    400 ≤ (postReviews (envFailing StoreFault.save) (Token.good userB) bodyB storeP).2.status ∧
    (postReviews (envFailing StoreFault.save) (Token.good userB) bodyB storeP).1.projects =
      storeP.projects ∧
    ((postReviews (envFailing StoreFault.save) (Token.good userB) bodyB storeP).1.reviews =
        storeP.reviews ∨
      ((envFailing StoreFault.save).fault = StoreFault.update ∧
        ∃ r, (postReviews (envFailing StoreFault.save) (Token.good userB) bodyB
          storeP).1.reviews = storeP.reviews ++ [r])) ∧
    ((envFailing StoreFault.save).fault ≠ StoreFault.update →
      (postReviews (envFailing StoreFault.save) (Token.good userB) bodyB storeP).1 = storeP) :=
  ⟨by decide,
    error_leaves_projects (envFailing StoreFault.save) (Token.good userB) bodyB storeP
      (by decide)⟩

/-- C15, counterexample: a submission with `scores.clarity = 6` and a valid
submission whose `review.save()` the store rejects get the same response. -/
theorem validation_and_store_failure_same_response :
    newReview (envOk 100 5) userB bodySix = none ∧
    (newReview (envFailing StoreFault.save) userB bodyB).isSome = true ∧
    (postReviews (envOk 100 5) (Token.good userB) bodySix storeP).2 =
      (postReviews (envFailing StoreFault.save) (Token.good userB) bodyB storeP).2 := by
  decide

/-- C15, amended: the response for a validation failure and the response for a
failed store call are one and the same, the 500 "Failed to submit review";
the duplicate-review response differs from it in status and in message. -/
theorem two_error_responses (env : Env) (u : ObjectId) (body : ReviewBody) (s : Store)
    (env2 : Env) (u2 : ObjectId) (body2 : ReviewBody) (s2 : Store)
    (hok : env.fault = StoreFault.none)
    (hfo : findOneReview s body.projectId u = none)
    (hinvalid : newReview env u body = none)
    (hfail : env2.fault = StoreFault.findOne ∨
      (findOneReview s2 body2.projectId u2 = none ∧
        (newReview env2 u2 body2).isSome = true ∧
        (env2.fault = StoreFault.save ∨ env2.fault = StoreFault.update))) :
    (postReviews env (Token.good u) body s).2 = failedToSubmit ∧
    (postReviews env2 (Token.good u2) body2 s2).2 = failedToSubmit ∧
    alreadyReviewed.status ≠ failedToSubmit.status ∧
    alreadyReviewed.body ≠ failedToSubmit.body := by
  refine ⟨?_, ?_, by decide, by decide⟩
  · simp [postReviews, authenticateToken, hok, hfo, hinvalid]
  · rcases hfail with h | ⟨h1, h2, h3⟩
    · simp [postReviews, authenticateToken, h]
    · obtain ⟨r, hr⟩ := Option.isSome_iff_exists.mp h2
      rcases h3 with h3 | h3
      · simp [postReviews, authenticateToken, h1, hr, h3]
      · simp [postReviews, authenticateToken, h1, hr, h3]

/-- The out-of-range score of scenario 5 and a rejected reviewers update both
get the 500 "Failed to submit review". -/
theorem two_error_responses_witness :
    (envOk 100 5).fault = StoreFault.none ∧
    findOneReview storeP bodySix.projectId userB = none ∧
    newReview (envOk 100 5) userB bodySix = none ∧
    (findOneReview storeP bodyB.projectId userC = none ∧
      (newReview (envFailing StoreFault.update) userC bodyB).isSome = true ∧
      (envFailing StoreFault.update).fault = StoreFault.update) ∧
    (postReviews (envOk 100 5) (Token.good userB) bodySix storeP).2 = failedToSubmit ∧
    (postReviews (envFailing StoreFault.update) (Token.good userC) bodyB storeP).2 =
      failedToSubmit :=
  ⟨by decide, by decide, by decide, by decide,
    (two_error_responses (envOk 100 5) userB bodySix storeP
      (envFailing StoreFault.update) userC bodyB storeP (by decide) (by decide) (by decide)
      (Or.inr ⟨by decide, by decide, Or.inr (by decide)⟩)).1,
    (two_error_responses (envOk 100 5) userB bodySix storeP
      (envFailing StoreFault.update) userC bodyB storeP (by decide) (by decide) (by decide)
      (Or.inr ⟨by decide, by decide, Or.inr (by decide)⟩)).2.1⟩

/-! ## Theorems on eligibility and the queue -/

/-- C16: for every loaded project whose submitter is the user, `canReview` is
false, whatever the project's reviews are (a missing review list included). -/
theorem canReview_own_project (p : LoadedProject) (user submitter : PopulatedUser)
    (hs : p.submitter = some submitter) (hown : submitter.id = user.id) :
    canReview (some p) user = some false := by
  simp [canReview, hs, hown]

/-- Scenario 1: `canReview(A, P)` is false, also once P has a review. -/
theorem canReview_own_project_witness :
    loadedPB.submitter = some clientA ∧ clientA.id = clientA.id ∧
    canReview (some loadedPB) clientA = some false :=
  ⟨by decide, rfl, canReview_own_project loadedPB clientA clientA (by decide) rfl⟩

/-- C17, at the failing input: user B, who is not the submitter, opens the page
of project P before any review; the payload of `GET /api/projects/1` carries
no review list, and `canReview` for B throws instead of being true; once B
has reviewed P it throws just the same instead of being false. -/
theorem canReview_throws_on_loaded_project :
    fetchProject (getProject false usersABC (Token.good userB) 1 storeP) = some loadedP ∧
    loadedP.submitter = some clientA ∧ clientA.id ≠ clientB.id ∧
    loadedP.reviews = none ∧
    canReview (some loadedP) clientB = none ∧
    fetchProject (getProject false usersABC (Token.good userB) 1 storeB) = some loadedPB ∧
    canReview (some loadedPB) clientB = none := by
  decide

theorem queueFor_eq (u : ObjectId) (s : Store) :
    queueFor u s = (s.projects.filter (forReviewQuery u)).take 10 := rfl

theorem mem_queueFor {u : ObjectId} {s : Store} {p : Project} (h : p ∈ queueFor u s) :
    p ∈ s.projects ∧ forReviewQuery u p = true := by
  rw [queueFor_eq] at h
  exact List.mem_filter.mp (List.mem_of_mem_take h)

theorem forReviewQuery_iff (u : ObjectId) (p : Project) :
    forReviewQuery u p = true ↔
      p.submitter ≠ u ∧ p.status = ProjectStatus.pending ∧ u ∉ p.reviewers := by
  simp [forReviewQuery, and_assoc]

theorem startsWithChars_iff (text pat : List Char) :
    startsWithChars text pat = true ↔ ∃ r, text = pat ++ r := by
  induction text generalizing pat with
  | nil =>
    cases pat with
    | nil => simp [startsWithChars]
    | cons b bs => simp [startsWithChars]
  | cons a as ih =>
    cases pat with
    | nil => simp [startsWithChars]
    | cons b bs =>
      simp only [startsWithChars, Bool.and_eq_true, beq_iff_eq, ih, List.cons_append,
        List.cons.injEq]
      constructor
      · rintro ⟨h1, r, h2⟩; exact ⟨r, h1, h2⟩
      · rintro ⟨r, h1, h2⟩; exact ⟨h1, r, h2⟩

theorem includesChars_iff (text pat : List Char) :
    includesChars text pat = true ↔ ∃ l r, text = l ++ pat ++ r := by
  induction text with
  | nil =>
    simp only [includesChars, startsWithChars_iff]
    constructor
    · rintro ⟨r, h⟩; exact ⟨[], r, by simpa using h⟩
    · rintro ⟨l, r, h⟩
      have h1 : l ++ pat ++ r = [] := h.symm
      simp only [List.append_eq_nil] at h1
      exact ⟨[], by simp [h1.1.2]⟩
  | cons a as ih =>
    simp only [includesChars, Bool.or_eq_true, startsWithChars_iff, ih]
    constructor
    · rintro (⟨r, h⟩ | ⟨l, r, h⟩)
      · exact ⟨[], r, by simpa using h⟩
      · exact ⟨a :: l, r, by simp [h]⟩
    · rintro ⟨l, r, h⟩
      cases l with
      | nil => left; exact ⟨r, by simpa using h⟩
      | cons b l =>
        right
        simp only [List.cons_append, List.cons.injEq] at h
        exact ⟨l, r, h.2⟩

theorem includes_iff (text pat : String) : includes text pat = true ↔ occursIn pat text :=
  includesChars_iff text.data pat.data

/-- C18, counterexample: after the rejected reviewers update of B's review of P,
the queue of B still holds P although a Review by B for P is in the store. -/
theorem queue_lists_reviewed_project :
    (queueFor userB (run ⟨[], []⟩ [reqNewP, reqReviewBFailing])).map (fun p => p.id) = [1] ∧
    (reviewsOf (run ⟨[], []⟩ [reqNewP, reqReviewBFailing]) 1 userB).length = 1 := by
  decide

/-- C18, amended: for every user U and every store, each project of `queueFor U`
is pending, has a submitter other than U and does not list U among its
reviewers; when the store was reached from the empty store without a failed
store call, no Review by U for such a project exists, and after a successful
review submission by U for P the queue of U holds no project with P's id. -/
theorem queue_sound (s : Store) (u : ObjectId) :
    (∀ p ∈ queueFor u s,
      p.status = ProjectStatus.pending ∧ p.submitter ≠ u ∧ u ∉ p.reviewers) ∧
    ∀ reqs : List Request, undisturbed ⟨[], []⟩ reqs = true → s = run ⟨[], []⟩ reqs →
      (∀ p ∈ queueFor u s, ¬ hasReview s p.id u) ∧
      ∀ (env : Env) (body : ReviewBody),
        (postReviews env (Token.good u) body s).2.status = 201 →
        ∀ p ∈ queueFor u (postReviews env (Token.good u) body s).1,
          p.id ≠ body.projectId := by
  refine ⟨?_, ?_⟩
  · intro p hp
    obtain ⟨h1, h2, h3⟩ := (forReviewQuery_iff u p).mp (mem_queueFor hp).2
    exact ⟨h2, h1, h3⟩
  · intro reqs hu hs
    have hl : ReviewsListed s := by
      rw [hs]; exact reviewsListed_run reqs _ reviewsListed_empty hu
    refine ⟨?_, ?_⟩
    · rintro p hp ⟨r, hr, h1, h2⟩
      obtain ⟨hmem, hq⟩ := mem_queueFor hp
      have h3 := ((forReviewQuery_iff u p).mp hq).2.2
      exact h3 (h2 ▸ hl.2 r hr p hmem h1)
    · intro env body hok p hp hid
      have hfault : env.fault = StoreFault.none := by
        rcases postReviews_cases env (Token.good u) body s with ⟨_, h2⟩ | ⟨_, _, _, _, _, hc⟩
        · rw [hok] at h2
          exact absurd h2 (by decide)
        · rcases hc with ⟨_, e⟩ | ⟨h0, _⟩
          · rw [e] at hok
            have h500 : failedToSubmit.status = 201 := hok
            exact absurd h500 (by decide)
          · exact h0
      have hl2 := reviewsListed_postReviews env (Token.good u) body s hfault hl
      obtain ⟨u1, r, ht, _, hn, e⟩ := postReviews_created hok
      cases ht
      have hr := newReview_project hn
      obtain ⟨hmem, hq⟩ := mem_queueFor hp
      have h3 := ((forReviewQuery_iff u p).mp hq).2.2
      apply h3
      have hrmem : r ∈ (postReviews env (Token.good u) body s).1.reviews := by
        rw [e]; simp
      have := hl2.2 r hrmem p hmem (hr.1.trans hid.symm)
      rwa [hr.2] at this

/-- Scenarios 1 and 2: before B's review the queue of B is `[P]`, a pending
project of A without reviewers; after B's successful review it is empty. -/
theorem queue_sound_witness :
    projP ∈ queueFor userB storeP ∧
    undisturbed ⟨[], []⟩ [reqNewP] = true ∧ storeP = run ⟨[], []⟩ [reqNewP] ∧
    (postReviews (envOk 100 5) (Token.good userB) bodyB storeP).2.status = 201 ∧
    queueFor userB (postReviews (envOk 100 5) (Token.good userB) bodyB storeP).1 = [] ∧
    (projP.status = ProjectStatus.pending ∧ projP.submitter ≠ userB ∧
      userB ∉ projP.reviewers) ∧
    ¬ hasReview storeP projP.id userB :=
  ⟨by decide, by decide, by decide, by decide, by decide,
    (queue_sound storeP userB).1 projP (by decide),
    ((queue_sound storeP userB).2 [reqNewP] (by decide) (by decide)).1 projP (by decide)⟩

/-- C19, counterexample: the store holds ten pending essays and then a pending
code project, all eligible for B; with the category filter "code" the
filtered queue is empty, although the code project is eligible and passes the
filter and is the one project the claim's list would hold. -/
theorem filtered_queue_misses_eleventh :
    codeProject ∈ storeEleven.projects ∧
    forReviewQuery userB codeProject = true ∧
    passesFilter asciiLower "" "code" codeProject = true ∧
    filterFetched asciiLower "" "code" (queueFor userB storeEleven) = [] ∧
    (storeEleven.projects.filter
      (fun p => forReviewQuery userB p && passesFilter asciiLower "" "code" p)).take 10 =
      [codeProject] := by
  decide

/-- C19, amended: for every store, user, search term and category, the filtered
queue has at most 10 projects, keeps the store order, and consists of those of
the first 10 projects satisfying the selection predicate that also pass the
filter. -/
theorem filtered_queue_of_first_ten (toLowerCase : String → String)
    (searchTerm selectedCategory : String) (u : ObjectId) (s : Store) :
    (filterFetched toLowerCase searchTerm selectedCategory (queueFor u s)).length ≤ 10 ∧
    (filterFetched toLowerCase searchTerm selectedCategory (queueFor u s)).Sublist
      s.projects ∧
    ∀ p, p ∈ filterFetched toLowerCase searchTerm selectedCategory (queueFor u s) ↔
      (p ∈ (s.projects.filter (forReviewQuery u)).take 10 ∧
        passesFilter toLowerCase searchTerm selectedCategory p = true) := by
  rw [queueFor_eq]
  refine ⟨?_, ?_, ?_⟩
  · exact le_trans (List.length_filter_le _ _) (List.length_take_le _ _)
  · exact (List.filter_sublist _).trans ((List.take_sublist _ _).trans (List.filter_sublist _))
  · intro p
    simp [filterFetched, List.mem_filter]

/-- C20: a fetched project passes the queue filter if and only if its title,
its description or one of its tags, in lower case, contains the search term
in lower case as a substring, and the selected category is empty or equal to
the project's category; with both the term and the category empty every
project passes (the empty string being its own lower case). -/
theorem passesFilter_iff (toLowerCase : String → String)
    (searchTerm selectedCategory : String) (p : Project) :
    (passesFilter toLowerCase searchTerm selectedCategory p = true ↔
      (occursIn (toLowerCase searchTerm) (toLowerCase p.title) ∨
        occursIn (toLowerCase searchTerm) (toLowerCase p.description) ∨
        ∃ tag ∈ p.tags, occursIn (toLowerCase searchTerm) (toLowerCase tag)) ∧
      (selectedCategory = "" ∨ p.category.name = selectedCategory)) ∧
    (toLowerCase "" = "" → passesFilter toLowerCase "" "" p = true) := by
  refine ⟨?_, ?_⟩
  · simp only [passesFilter, matchesSearch, matchesCategory, Bool.and_eq_true,
      Bool.or_eq_true, List.any_eq_true, includes_iff, beq_iff_eq, or_assoc]
  · intro h
    have hin : includes (toLowerCase p.title) (toLowerCase "") = true := by
      rw [includes_iff, h]
      exact ⟨[], (toLowerCase p.title).data, by simp⟩
    simp [passesFilter, matchesSearch, matchesCategory, hin]

/-- The code project passes the empty filter; it passes the term "PROJ", found in
its description in lower case, with the category "code" and fails it with the
category "essay". -/
theorem passesFilter_iff_witness :
    asciiLower "" = "" ∧
    passesFilter asciiLower "" "" codeProject = true ∧
    passesFilter asciiLower "PROJ" "code" codeProject = true ∧
    passesFilter asciiLower "PROJ" "essay" codeProject = false :=
  ⟨by decide, (passesFilter_iff asciiLower "" "" codeProject).2 (by decide),
    by decide, by decide⟩

/-! ## Theorems on the ordering of the queue -/

/-- The sort puts a list in the order of its comparator when "not positive" is
a total and transitive relation, and only permutes the list. -/
theorem jsSort_sorted {α : Type} (compare : α → α → Int)
    (htotal : ∀ a b, compare a b ≤ 0 ∨ compare b a ≤ 0)
    (htrans : ∀ a b c, compare a b ≤ 0 → compare b c ≤ 0 → compare a c ≤ 0)
    (l : List α) : List.Sorted (fun a b => compare a b ≤ 0) (jsSort compare l) := by
  haveI : IsTotal α (fun a b => compare a b ≤ 0) := ⟨htotal⟩
  haveI : IsTrans α (fun a b => compare a b ≤ 0) := ⟨htrans⟩
  exact List.sorted_insertionSort _ l

theorem jsSort_perm {α : Type} (compare : α → α → Int) (l : List α) :
    (jsSort compare l).Perm l :=
  List.perm_insertionSort _ l

/-- C21: with the ordering "newest", the initial one, the displayed queue is in
non-increasing order of creation time, with "oldest" it is in non-decreasing
order, and in both cases it is a permutation of the filtered list. -/
theorem queue_sorted_by_creation (toLowerCase : String → String)
    (localeCompare : String → String → Int) (searchTerm selectedCategory : String)
    (projects : List Project) :
    defaultSortBy = "newest" ∧
    List.Sorted (fun a b : Project => b.createdAt ≤ a.createdAt)
      (filteredProjects toLowerCase localeCompare searchTerm selectedCategory "newest"
        projects) ∧
    (filteredProjects toLowerCase localeCompare searchTerm selectedCategory "newest"
      projects).Perm (filterFetched toLowerCase searchTerm selectedCategory projects) ∧
    List.Sorted (fun a b : Project => a.createdAt ≤ b.createdAt)
      (filteredProjects toLowerCase localeCompare searchTerm selectedCategory "oldest"
        projects) ∧
    (filteredProjects toLowerCase localeCompare searchTerm selectedCategory "oldest"
      projects).Perm (filterFetched toLowerCase searchTerm selectedCategory projects) := by
  refine ⟨rfl, ?_, jsSort_perm _ _, ?_, jsSort_perm _ _⟩
  · have h := jsSort_sorted (compareProjects localeCompare "newest")
      (by intro a b; simp only [compareProjects, if_true]; omega)
      (by intro a b c; simp only [compareProjects, if_true]; omega)
      (filterFetched toLowerCase searchTerm selectedCategory projects)
    refine List.Pairwise.imp ?_ h
    intro a b hab
    simp only [compareProjects, if_true] at hab
    omega
  · have hne : ("oldest" : String) ≠ "newest" := by decide
    have h := jsSort_sorted (compareProjects localeCompare "oldest")
      (by intro a b; simp only [compareProjects, hne, if_false, if_true]; omega)
      (by intro a b c; simp only [compareProjects, hne, if_false, if_true]; omega)
      (filterFetched toLowerCase searchTerm selectedCategory projects)
    refine List.Pairwise.imp ?_ h
    intro a b hab
    simp only [compareProjects, hne, if_false, if_true] at hab
    omega

/-- C22: with the ordering "category" the displayed queue is in non-decreasing
lexicographic order of the category string, provided `localeCompare` orders
the seven category names as the lexicographic order does. -/
theorem queue_sorted_by_category (toLowerCase : String → String)
    (localeCompare : String → String → Int) (searchTerm selectedCategory : String)
    (projects : List Project)
    (hloc : ∀ a b : Category, localeCompare a.name b.name ≤ 0 ↔ a.name ≤ b.name) :
    List.Sorted (fun a b : Project => a.category.name ≤ b.category.name)
      (filteredProjects toLowerCase localeCompare searchTerm selectedCategory "category"
        projects) := by
  have h1 : ("category" : String) ≠ "newest" := by decide
  have h2 : ("category" : String) ≠ "oldest" := by decide
  have hc : ∀ a b : Project, compareProjects localeCompare "category" a b ≤ 0 ↔
      a.category.name ≤ b.category.name := by
    intro a b
    simp only [compareProjects, h1, h2, if_false, if_true]
    exact hloc a.category b.category
  have h := jsSort_sorted (compareProjects localeCompare "category")
    (by intro a b; rw [hc, hc]; exact le_total _ _)
    (by intro a b c; rw [hc, hc, hc]; exact le_trans)
    (filterFetched toLowerCase searchTerm selectedCategory projects)
  exact List.Pairwise.imp (fun {a b} hab => (hc a b).mp hab) h

/-- Three projects of categories video, essay and code are displayed as code,
essay, video. -/
theorem queue_sorted_by_category_witness :
    (∀ a b : Category, codePointCompare a.name b.name ≤ 0 ↔ a.name ≤ b.name) ∧
    (filteredProjects asciiLower codePointCompare "" "" "category" threeFetched).map
      (fun p => p.category.name) = ["code", "essay", "video"] ∧
    List.Sorted (fun a b : Project => a.category.name ≤ b.category.name)
      (filteredProjects asciiLower codePointCompare "" "" "category" threeFetched) :=
  ⟨by intro a b; cases a <;> cases b <;> (rw [String.le_iff_toList_le]; decide),
    by decide,
    queue_sorted_by_category asciiLower codePointCompare "" "" threeFetched
      (by intro a b; cases a <;> cases b <;> (rw [String.le_iff_toList_le]; decide))⟩

/-! ## Theorems on the read routes and on frames -/

/-- C23, at the failing input: user A, the submitter of P, reads P and the
dashboard after B's review; both payloads carry B's id in `reviewers`, and
they differ from the payloads of the store that differs only in C having
written the review. -/
theorem reviewer_id_returned_to_submitter :
    projP.submitter = userA ∧
    storeBbyC.reviews = storeB.reviews.map (fun r => { r with reviewer := userC }) ∧
    storeBbyC.projects = storeB.projects.map (fun p => { p with reviewers := [userC] }) ∧
    getProject false usersABC (Token.good userA) 1 storeB =
      ⟨200, .project ⟨{ projP with reviewers := [userB], updatedAt := 5 }, some clientA⟩⟩ ∧
    getProject false usersABC (Token.good userA) 1 storeB ≠
      getProject false usersABC (Token.good userA) 1 storeBbyC ∧
    (submittedProjects userA storeB).map (fun p => p.reviewers) = [[userB]] ∧
    getDashboard false usersABC (Token.good userA) storeB ≠
      getDashboard false usersABC (Token.good userA) storeBbyC := by
  decide

theorem postReviews_reviews (env : Env) (t : Token) (body : ReviewBody) (s : Store) :
    ∃ added, (postReviews env t body s).1.reviews = s.reviews ++ added ∧
      added.length ≤ 1 := by
  rcases postReviews_cases env t body s with ⟨h1, _⟩ | ⟨u, r, _, _, _, hc⟩
  · exact ⟨[], by rw [h1]; simp, by simp⟩
  · refine ⟨[r], ?_, by simp⟩
    rcases hc with ⟨_, e⟩ | ⟨_, e⟩ <;> rw [e]

theorem postProjects_reviews (env : Env) (t : Token) (body : ProjectBody) (s : Store) :
    (postProjects env t body s).1.reviews = s.reviews := by
  rcases postProjects_cases env t body s with h1 | ⟨u, p, _, _, e⟩
  · rw [h1]
  · rw [e]

theorem handle_reviews (s : Store) (q : Request) :
    ∃ added, (handle s q).reviews = s.reviews ++ added ∧ added.length ≤ 1 := by
  cases q with
  | project env t body => exact ⟨[], by simp [handle, postProjects_reviews], by simp⟩
  | review env t body => exact postReviews_reviews env t body s

/-- C24: no operation that writes to the store modifies or deletes a Review:
after one request, and after any sequence of requests, the reviews of the
store are the reviews from before, unchanged and in place, followed by the
newly inserted ones (at most one per request). The read routes return a
response only. -/
theorem reviews_only_appended (s : Store) :
    (∀ q : Request, ∃ added, (handle s q).reviews = s.reviews ++ added ∧
      added.length ≤ 1) ∧
    ∀ reqs : List Request, ∃ added, (run s reqs).reviews = s.reviews ++ added ∧
      added.length ≤ reqs.length := by
  refine ⟨handle_reviews s, ?_⟩
  intro reqs
  induction reqs generalizing s with
  | nil => exact ⟨[], by simp [run], by simp⟩
  | cons q qs ih =>
    obtain ⟨a1, h1, l1⟩ := handle_reviews s q
    obtain ⟨a2, h2, l2⟩ := ih (handle s q)
    refine ⟨a1 ++ a2, ?_, ?_⟩
    · simp only [run, List.foldl_cons] at h2 ⊢
      rw [h2, h1, List.append_assoc]
    · simp only [List.length_append, List.length_cons]
      omega

theorem findByIdAndPushReviewer_others (now : Nat) (id u : ObjectId) (ps : List Project) :
    (findByIdAndPushReviewer now id u ps).filter (fun p => p.id != id) =
      ps.filter (fun p => p.id != id) := by
  induction ps with
  | nil => rfl
  | cons a ps ih =>
    unfold findByIdAndPushReviewer
    split
    · rename_i ha
      simp [List.filter_cons, ha]
    · simp only [List.filter_cons, ih]

/-- C25: a successful review submission for project P leaves every project with
another id exactly as it was, and on every project leaves all fields other
than `reviewers` (and Mongoose's `updatedAt`) as they were: id, title,
description, category, tags, file reference, submitter, status, maxReviewers,
reviewCount, averageRating and the creation time. -/
theorem submit_review_frame (env : Env) (t : Token) (body : ReviewBody) (s : Store)
    (hok : (postReviews env t body s).2.status = 201) :
    (postReviews env t body s).1.projects.filter (fun p => p.id != body.projectId) =
      s.projects.filter (fun p => p.id != body.projectId) ∧
    (postReviews env t body s).1.projects.map Project.fixedFields =
      s.projects.map Project.fixedFields := by
  obtain ⟨u, r, _, _, _, e⟩ := postReviews_created hok
  rw [e]
  exact ⟨findByIdAndPushReviewer_others _ _ _ _,
    findByIdAndPushReviewer_map Project.fixedFields (fun _ _ _ => rfl) _ _ _ _⟩

/-- Scenario 4 on a store of two projects: C's review of P leaves the fixed
fields of both projects and the whole of the other project as they were. -/
theorem submit_review_frame_witness :
    (postReviews (envOk 101 6) (Token.good userC) bodyC
      ⟨storeB.projects ++ [codeProject], storeB.reviews⟩).2.status = 201 ∧
    (postReviews (envOk 101 6) (Token.good userC) bodyC
        ⟨storeB.projects ++ [codeProject], storeB.reviews⟩).1.projects.filter
        (fun p => p.id != bodyC.projectId) = [codeProject] ∧
    (postReviews (envOk 101 6) (Token.good userC) bodyC
        ⟨storeB.projects ++ [codeProject], storeB.reviews⟩).1.projects.map
        Project.fixedFields =
      (storeB.projects ++ [codeProject]).map Project.fixedFields :=
  ⟨by decide, by decide,
    (submit_review_frame (envOk 101 6) (Token.good userC) bodyC
      ⟨storeB.projects ++ [codeProject], storeB.reviews⟩ (by decide)).2⟩

/-- C26, at the failing input: after B's review of P the dashboard of B lists P
among the projects assigned for review, although B's Review of P is stored
and a further submission by B is answered as a duplicate; before the review,
when B could review P, the list is empty. -/
theorem assigned_reviews_are_reviewed_projects :
    (assignedReviews usersABC userB storeB).map (fun v => v.project.id) = [1] ∧
    (reviewsOf storeB 1 userB).length = 1 ∧
    (postReviews (envOk 102 7) (Token.good userB) bodyC storeB).2 = alreadyReviewed ∧
    assignedReviews usersABC userB storeP = [] ∧
    (queueFor userB storeP).map (fun p => p.id) = [1] := by
  decide

/-! ## Theorems on tags -/

theorem jsTrim_data (s : String) :
    (jsTrim s).data = (s.data.dropWhile isJsWhitespace).rdropWhile isJsWhitespace := rfl

theorem dropWhile_rdropWhile_dropWhile {α : Type} (p : α → Bool) (l : List α) :
    ((l.dropWhile p).rdropWhile p).dropWhile p = (l.dropWhile p).rdropWhile p := by
  have hpre : (l.dropWhile p).rdropWhile p <+: l.dropWhile p := List.rdropWhile_prefix p _
  cases ht : (l.dropWhile p).rdropWhile p with
  | nil => rfl
  | cons a t =>
    rw [ht] at hpre
    obtain ⟨rest, hrest⟩ := hpre
    have hid := List.dropWhile_idempotent p l
    rw [← hrest] at hid
    have hpa := (List.dropWhile_eq_self_iff.mp hid) (by simp)
    simp only [List.cons_append, List.get_eq_getElem, List.getElem_cons_zero] at hpa
    simp [List.dropWhile_cons, hpa]

theorem jsTrim_jsTrim (s : String) : jsTrim (jsTrim s) = jsTrim s := by
  apply String.ext
  rw [jsTrim_data, jsTrim_data, dropWhile_rdropWhile_dropWhile, List.rdropWhile_idempotent]

theorem toLower_cases (c : Char) (P : Char → Prop)
    (hupper : ∀ n : Nat, 65 ≤ n → n ≤ 90 → P (Char.ofNat n))
    (hother : c.toLower = c → P c) : P c := by
  by_cases h : 65 ≤ c.toNat ∧ c.toNat ≤ 90
  · have hc := Char.ofNat_toNat c
    rw [← hc]
    exact hupper c.toNat h.1 h.2
  · apply hother
    unfold Char.toLower
    simp only [ge_iff_le]
    rw [if_neg h]

theorem toLower_toLower (c : Char) : c.toLower.toLower = c.toLower := by
  refine toLower_cases c (fun c => c.toLower.toLower = c.toLower) ?_ ?_
  · intro n h1 h2
    interval_cases n <;> decide
  · intro h
    rw [h, h]

theorem isJsWhitespace_toLower (c : Char) :
    isJsWhitespace c.toLower = isJsWhitespace c := by
  refine toLower_cases c (fun c => isJsWhitespace c.toLower = isJsWhitespace c) ?_ ?_
  · intro n h1 h2
    interval_cases n <;> decide
  · intro h
    rw [h]

theorem asciiLower_ne_empty (s : String) (h : s ≠ "") : asciiLower s ≠ "" := by
  intro he
  apply h
  apply String.ext
  have hd : (asciiLower s).data = [] := by rw [he]
  simpa [asciiLower] using hd

theorem asciiLower_asciiLower (s : String) : asciiLower (asciiLower s) = asciiLower s := by
  apply String.ext
  simp [asciiLower, toLower_toLower]

theorem jsTrim_asciiLower (s : String) : jsTrim (asciiLower s) = asciiLower (jsTrim s) := by
  apply String.ext
  have hcomp : isJsWhitespace ∘ Char.toLower = isJsWhitespace := by
    funext c
    exact isJsWhitespace_toLower c
  show (((s.data.map Char.toLower).dropWhile isJsWhitespace).reverse.dropWhile
      isJsWhitespace).reverse =
    (((s.data.dropWhile isJsWhitespace).reverse.dropWhile isJsWhitespace).reverse).map
      Char.toLower
  rw [List.dropWhile_map, hcomp, ← List.map_reverse, List.dropWhile_map, hcomp,
    List.map_reverse]

theorem asciiLower_trimmed (s : String) (h : jsTrim s = s) :
    jsTrim (asciiLower s) = asciiLower s := by
  rw [jsTrim_asciiLower, h]

/-- What holds of the tag list after any sequence of handler calls: no
duplicates, at most five entries, each the lower case of a non-empty trimmed
input. -/
theorem tagActions_invariant (toLowerCase : String → String) (actions : List TagAction)
    (tags : List String)
    (h : tags.Nodup ∧ tags.length ≤ 5 ∧
      ∀ t ∈ tags, ∃ input, jsTrim input ≠ "" ∧ t = toLowerCase (jsTrim input)) :
    (applyTagActions toLowerCase tags actions).Nodup ∧
    (applyTagActions toLowerCase tags actions).length ≤ 5 ∧
    ∀ t ∈ applyTagActions toLowerCase tags actions,
      ∃ input, jsTrim input ≠ "" ∧ t = toLowerCase (jsTrim input) := by
  induction actions generalizing tags with
  | nil => exact h
  | cons a as ih =>
    simp only [applyTagActions, List.foldl_cons]
    apply ih
    obtain ⟨hnd, hlen, hform⟩ := h
    cases a with
    | add tagInput =>
      show (handleAddTag toLowerCase tagInput tags).Nodup ∧
        (handleAddTag toLowerCase tagInput tags).length ≤ 5 ∧
        ∀ t ∈ handleAddTag toLowerCase tagInput tags,
          ∃ input, jsTrim input ≠ "" ∧ t = toLowerCase (jsTrim input)
      unfold handleAddTag
      split
      · rename_i hc
        split
        · exact ⟨hnd, hlen, hform⟩
        · rename_i hnew
          refine ⟨?_, ?_, ?_⟩
          · rw [List.nodup_append]
            refine ⟨hnd, by simp, ?_⟩
            intro x hx hy
            rw [List.mem_singleton] at hy
            subst hy
            exact hnew hx
          · simp only [List.length_append, List.length_singleton]
            omega
          · intro t ht
            rcases List.mem_append.mp ht with ht | ht
            · exact hform t ht
            · rw [List.mem_singleton] at ht
              exact ⟨tagInput, hc.1, ht⟩
      · exact ⟨hnd, hlen, hform⟩
    | remove tagToRemove =>
      show (handleRemoveTag tagToRemove tags).Nodup ∧
        (handleRemoveTag tagToRemove tags).length ≤ 5 ∧
        ∀ t ∈ handleRemoveTag tagToRemove tags,
          ∃ input, jsTrim input ≠ "" ∧ t = toLowerCase (jsTrim input)
      unfold handleRemoveTag
      refine ⟨hnd.filter _, le_trans (List.length_filter_le _ _) hlen, ?_⟩
      intro t ht
      exact hform t (List.mem_filter.mp ht).1

/-- The entries of the tag list are non-empty, trimmed and in lower case, when
`toLowerCase` keeps texts non-empty and trimmed and is idempotent. -/
theorem tagActions_entries (toLowerCase : String → String)
    (hne : ∀ s, s ≠ "" → toLowerCase s ≠ "")
    (htrim : ∀ s, jsTrim s = s → jsTrim (toLowerCase s) = toLowerCase s)
    (hidem : ∀ s, toLowerCase (toLowerCase s) = toLowerCase s)
    (actions : List TagAction) (t : String)
    (ht : t ∈ applyTagActions toLowerCase [] actions) :
    t ≠ "" ∧ jsTrim t = t ∧ toLowerCase t = t := by
  obtain ⟨input, hin, rfl⟩ :=
    (tagActions_invariant toLowerCase actions [] ⟨List.nodup_nil, by simp, by simp⟩).2.2 t ht
  exact ⟨hne _ hin, htrim _ (jsTrim_jsTrim input), hidem _⟩

/-- C27: starting from the empty tag list, after any sequence of `handleAddTag`
and `handleRemoveTag` calls the tag list has no duplicates and at most 5
entries, and every entry is non-empty, trimmed and in lower case (for a
`toLowerCase` that keeps texts non-empty and trimmed and is idempotent); an
add of a blank input, of an input whose tag is already listed, of a listed
tag itself, or onto a list of 5 tags leaves the list unchanged. -/
theorem tag_list_invariant (toLowerCase : String → String)
    (hne : ∀ s, s ≠ "" → toLowerCase s ≠ "")
    (htrim : ∀ s, jsTrim s = s → jsTrim (toLowerCase s) = toLowerCase s)
    (hidem : ∀ s, toLowerCase (toLowerCase s) = toLowerCase s)
    (actions : List TagAction) :
    (applyTagActions toLowerCase [] actions).Nodup ∧
    (applyTagActions toLowerCase [] actions).length ≤ 5 ∧
    (∀ t ∈ applyTagActions toLowerCase [] actions,
      t ≠ "" ∧ jsTrim t = t ∧ toLowerCase t = t) ∧
    (∀ (tags : List String) (tagInput : String),
      jsTrim tagInput = "" ∨ toLowerCase (jsTrim tagInput) ∈ tags ∨ 5 ≤ tags.length →
      handleAddTag toLowerCase tagInput tags = tags) ∧
    ∀ t ∈ applyTagActions toLowerCase [] actions,
      handleAddTag toLowerCase t (applyTagActions toLowerCase [] actions) =
        applyTagActions toLowerCase [] actions := by
  have hinv := tagActions_invariant toLowerCase actions []
    ⟨List.nodup_nil, by simp, by simp⟩
  have hadd : ∀ (tags : List String) (tagInput : String),
      jsTrim tagInput = "" ∨ toLowerCase (jsTrim tagInput) ∈ tags ∨ 5 ≤ tags.length →
      handleAddTag toLowerCase tagInput tags = tags := by
    intro tags tagInput h
    unfold handleAddTag
    rcases h with h | h | h
    · simp [h]
    · simp [h]
    · have : ¬ tags.length < 5 := by omega
      simp [this]
  refine ⟨hinv.1, hinv.2.1, tagActions_entries toLowerCase hne htrim hidem actions, hadd, ?_⟩
  intro t ht
  obtain ⟨_, h2, h3⟩ := tagActions_entries toLowerCase hne htrim hidem actions t ht
  apply hadd
  right; left
  rw [h2, h3]
  exact ht

/-- A session on the submission page: "  Lean " is stored as "lean", the
repeated "lean" and the blank input change nothing, and after removing
"lean" and adding "math" the list is "proof assistant", "math". -/
theorem tag_list_invariant_witness :
    (∀ s, s ≠ "" → asciiLower s ≠ "") ∧
    (∀ s, jsTrim s = s → jsTrim (asciiLower s) = asciiLower s) ∧
    (∀ s, asciiLower (asciiLower s) = asciiLower s) ∧
    applyTagActions asciiLower [] sampleTagActions = ["proof assistant", "math"] ∧
    (applyTagActions asciiLower [] sampleTagActions).Nodup ∧
    (applyTagActions asciiLower [] sampleTagActions).length ≤ 5 :=
  ⟨asciiLower_ne_empty, asciiLower_trimmed, asciiLower_asciiLower, by decide,
    (tag_list_invariant asciiLower asciiLower_ne_empty asciiLower_trimmed
      asciiLower_asciiLower sampleTagActions).1,
    (tag_list_invariant asciiLower asciiLower_ne_empty asciiLower_trimmed
      asciiLower_asciiLower sampleTagActions).2.1⟩

theorem splitComma_no_comma (w : List Char) (h : ',' ∉ w) : splitComma w = [w] := by
  induction w with
  | nil => rfl
  | cons c cs ih =>
    have hc : c ≠ ',' := fun e => h (e ▸ List.mem_cons_self _ _)
    have hcs : ',' ∉ cs := fun e => h (List.mem_cons_of_mem _ e)
    simp [splitComma, hc, ih hcs]

theorem splitComma_append_comma (w rest : List Char) (h : ',' ∉ w) :
    splitComma (w ++ ',' :: rest) = w :: splitComma rest := by
  induction w with
  | nil => simp [splitComma]
  | cons c cs ih =>
    have hc : c ≠ ',' := fun e => h (e ▸ List.mem_cons_self _ _)
    have hcs : ',' ∉ cs := fun e => h (List.mem_cons_of_mem _ e)
    simp [splitComma, hc, ih hcs]

theorem splitComma_joinCommaChars (t : String) (tags : List String)
    (h : ∀ x ∈ t :: tags, ',' ∉ x.data) :
    splitComma (joinCommaChars (t :: tags)) = (t :: tags).map (fun x => x.data) := by
  induction tags generalizing t with
  | nil =>
    simp only [joinCommaChars, List.map_cons, List.map_nil]
    exact splitComma_no_comma _ (h t (List.mem_cons_self _ _))
  | cons u rest ih =>
    simp only [joinCommaChars]
    rw [splitComma_append_comma _ _ (h t (List.mem_cons_self _ _)),
      ih u (fun x hx => h x (List.mem_cons_of_mem _ hx))]
    simp

/-- The server's parsing undoes the client's encoding on a list of non-empty,
trimmed, comma-free tags. -/
theorem parseTags_joinComma (tags : List String)
    (hne : ∀ t ∈ tags, t ≠ "") (htrim : ∀ t ∈ tags, jsTrim t = t)
    (hcomma : ∀ t ∈ tags, ',' ∉ t.data) :
    parseTags (some (joinComma tags)) = tags := by
  cases tags with
  | nil => simp [parseTags, joinComma, joinCommaChars]
  | cons t rest =>
    have hjoin : joinComma (t :: rest) ≠ "" := by
      intro he
      have hd : (joinComma (t :: rest)).data = [] := by rw [he]
      have ht : t.data = [] := by
        cases rest with
        | nil => simpa [joinComma, joinCommaChars] using hd
        | cons u r => simp [joinComma, joinCommaChars] at hd
      exact hne t (List.mem_cons_self _ _) (String.ext ht)
    simp only [parseTags, hjoin, if_false]
    show (splitComma (joinCommaChars (t :: rest))).map (fun w => jsTrim ⟨w⟩) = t :: rest
    rw [splitComma_joinCommaChars t rest hcomma, List.map_map]
    have hid : ∀ x ∈ t :: rest, ((fun w => jsTrim ⟨w⟩) ∘ fun x : String => x.data) x = x := by
      intro x hx
      exact htrim x hx
    rw [List.map_congr_left hid, List.map_id']

theorem roundHalfEven_of_floor (x : ℚ) (f : ℤ) (h1 : (f : ℚ) ≤ x) (h2 : x < f + 1) :
    roundHalfEven x =
      if x - f < 1 / 2 then f else if 1 / 2 < x - f then f + 1
      else if f % 2 = 0 then f else f + 1 := by
  have hf : ⌊x⌋ = f := Int.floor_eq_iff.mpr ⟨h1, h2⟩
  simp only [roundHalfEven, hf]

theorem roundHalfEven_intCast (n : ℤ) : roundHalfEven (n : ℚ) = n := by
  rw [roundHalfEven_of_floor (n : ℚ) n le_rfl (by linarith)]
  simp

theorem roundHalfEven_mono {x y : ℚ} (h : x ≤ y) : roundHalfEven x ≤ roundHalfEven y := by
  have hfx := Int.floor_le x
  have hfx' := Int.lt_floor_add_one x
  have hfy := Int.floor_le y
  have hfy' := Int.lt_floor_add_one y
  have hmono : ⌊x⌋ ≤ ⌊y⌋ := Int.floor_mono h
  rcases hmono.lt_or_eq with hlt | heq
  · have h1 : roundHalfEven x ≤ ⌊x⌋ + 1 := by
      unfold roundHalfEven; split_ifs <;> omega
    have h2 : ⌊y⌋ ≤ roundHalfEven y := by
      unfold roundHalfEven; split_ifs <;> omega
    omega
  · unfold roundHalfEven
    rw [← heq]
    have hxy : x - ⌊x⌋ ≤ y - ⌊x⌋ := by linarith
    split_ifs <;> first | omega | (exfalso; linarith)

theorem log_two_eq {q : ℚ} {e : ℤ} (h1 : (2 : ℚ) ^ e ≤ q) (h2 : q < 2 ^ (e + 1)) :
    Int.log 2 q = e := by
  have hq : 0 < q := lt_of_lt_of_le (by positivity) h1
  have ha : e ≤ Int.log 2 q := (Int.zpow_le_iff_le_log (by norm_num) hq).mp (by exact_mod_cast h1)
  have hb : Int.log 2 q < e + 1 := (Int.lt_zpow_iff_log_lt (by norm_num) hq).mp (by exact_mod_cast h2)
  omega

theorem roundDouble_of_binade {q : ℚ} {e : ℤ} (h1 : (2 : ℚ) ^ e ≤ q) (h2 : q < 2 ^ (e + 1)) :
    roundDouble q = roundHalfEven (q / 2 ^ (e - 52)) * 2 ^ (e - 52) := by
  have hq : 0 < q := lt_of_lt_of_le (by positivity) h1
  simp only [roundDouble, hq.ne', hq, if_true, if_false, log_two_eq h1 h2]

theorem two_zpow_52 (e : ℤ) : (2 : ℚ) ^ e = 4503599627370496 * 2 ^ (e - 52) := by
  have h : e = 52 + (e - 52) := by ring
  conv_lhs => rw [h, zpow_add₀ (by norm_num : (2 : ℚ) ≠ 0)]
  norm_num

theorem two_zpow_53 (e : ℤ) : (2 : ℚ) ^ (e + 1) = 9007199254740992 * 2 ^ (e - 52) := by
  have h : e + 1 = 53 + (e - 52) := by ring
  conv_lhs => rw [h, zpow_add₀ (by norm_num : (2 : ℚ) ≠ 0)]
  norm_num

/-- The rounded value stays in the closed binade of the argument. -/
theorem roundDouble_binade {q : ℚ} (hq : 0 < q) :
    (2 : ℚ) ^ Int.log 2 q ≤ roundDouble q ∧ roundDouble q ≤ 2 ^ (Int.log 2 q + 1) := by
  have h1 : (2 : ℚ) ^ Int.log 2 q ≤ q := by
    have := Int.zpow_log_le_self (b := 2) (by norm_num) hq
    exact_mod_cast this
  have h2 : q < (2 : ℚ) ^ (Int.log 2 q + 1) := by
    have := Int.lt_zpow_succ_log_self (b := 2) (by norm_num) q
    exact_mod_cast this
  have hu : (0 : ℚ) < 2 ^ (Int.log 2 q - 52) := by positivity
  have e52 := two_zpow_52 (Int.log 2 q)
  have e53 := two_zpow_53 (Int.log 2 q)
  have hx1 : ((4503599627370496 : ℤ) : ℚ) ≤ q / 2 ^ (Int.log 2 q - 52) := by
    rw [le_div_iff₀ hu]
    push_cast
    linarith
  have hx2 : q / 2 ^ (Int.log 2 q - 52) ≤ ((9007199254740992 : ℤ) : ℚ) := by
    rw [div_le_iff₀ hu]
    push_cast
    linarith
  have hr1 := roundHalfEven_mono hx1
  have hr2 := roundHalfEven_mono hx2
  rw [roundHalfEven_intCast] at hr1 hr2
  have hc1 : (4503599627370496 : ℚ) ≤ (roundHalfEven (q / 2 ^ (Int.log 2 q - 52)) : ℚ) := by
    exact_mod_cast hr1
  have hc2 : (roundHalfEven (q / 2 ^ (Int.log 2 q - 52)) : ℚ) ≤ 9007199254740992 := by
    exact_mod_cast hr2
  rw [roundDouble_of_binade h1 h2, e52, e53]
  exact ⟨mul_le_mul_of_nonneg_right hc1 hu.le, mul_le_mul_of_nonneg_right hc2 hu.le⟩

/-- Rounding to the nearest double is monotone on the non-negative numbers. -/
theorem roundDouble_mono {a b : ℚ} (ha : 0 ≤ a) (h : a ≤ b) :
    roundDouble a ≤ roundDouble b := by
  rcases ha.lt_or_eq with ha | ha
  · have hb : 0 < b := lt_of_lt_of_le ha h
    have hlog : Int.log 2 a ≤ Int.log 2 b := Int.log_mono_right ha h
    rcases hlog.lt_or_eq with hlt | heq
    · have h1 := (roundDouble_binade ha).2
      have h2 := (roundDouble_binade hb).1
      have h3 : (2 : ℚ) ^ (Int.log 2 a + 1) ≤ 2 ^ Int.log 2 b :=
        zpow_le_zpow_right₀ (by norm_num) (by omega)
      linarith
    · have ha1 : (2 : ℚ) ^ Int.log 2 a ≤ a := by
        have := Int.zpow_log_le_self (b := 2) (by norm_num) ha
        exact_mod_cast this
      have ha2 : a < (2 : ℚ) ^ (Int.log 2 a + 1) := by
        have := Int.lt_zpow_succ_log_self (b := 2) (by norm_num) a
        exact_mod_cast this
      have hb1 : (2 : ℚ) ^ Int.log 2 b ≤ b := by
        have := Int.zpow_log_le_self (b := 2) (by norm_num) hb
        exact_mod_cast this
      have hb2 : b < (2 : ℚ) ^ (Int.log 2 b + 1) := by
        have := Int.lt_zpow_succ_log_self (b := 2) (by norm_num) b
        exact_mod_cast this
      rw [roundDouble_of_binade ha1 ha2, roundDouble_of_binade hb1 hb2, ← heq]
      have hu : (0 : ℚ) < 2 ^ (Int.log 2 a - 52) := by positivity
      have hxy : a / 2 ^ (Int.log 2 a - 52) ≤ b / 2 ^ (Int.log 2 a - 52) :=
        div_le_div_of_nonneg_right h hu.le
      have := roundHalfEven_mono hxy
      have hc : (roundHalfEven (a / 2 ^ (Int.log 2 a - 52)) : ℚ) ≤
          (roundHalfEven (b / 2 ^ (Int.log 2 a - 52)) : ℚ) := by exact_mod_cast this
      exact mul_le_mul_of_nonneg_right hc hu.le
  · rw [← ha]
    have h0 : roundDouble 0 = 0 := by simp [roundDouble]
    rw [h0]
    rcases (ha ▸ h : (0 : ℚ) ≤ b).lt_or_eq with hb | hb
    · have h2 := (roundDouble_binade hb).1
      have : (0 : ℚ) < 2 ^ Int.log 2 b := by positivity
      linarith
    · rw [← hb, h0]

/-- The value of the rounding when the binade and the integer part of the scaled
argument are known. -/
theorem roundDouble_eval {q : ℚ} (e f : ℤ) (h1 : (2 : ℚ) ^ e ≤ q) (h2 : q < 2 ^ (e + 1))
    (hf1 : (f : ℚ) ≤ q / 2 ^ (e - 52)) (hf2 : q / 2 ^ (e - 52) < f + 1) :
    roundDouble q =
      ((if q / 2 ^ (e - 52) - f < 1 / 2 then f
        else if 1 / 2 < q / 2 ^ (e - 52) - f then f + 1
        else if f % 2 = 0 then f else f + 1 : ℤ) : ℚ) * 2 ^ (e - 52) := by
  rw [roundDouble_of_binade h1 h2, roundHalfEven_of_floor _ f hf1 hf2]

theorem roundDouble_between {lo hi x : ℚ} (hlo : roundDouble lo = lo)
    (hhi : roundDouble hi = hi) (h0 : 0 ≤ lo) (h1 : lo ≤ x) (h2 : x ≤ hi) :
    lo ≤ roundDouble x ∧ roundDouble x ≤ hi := by
  have ha := roundDouble_mono h0 h1
  have hb := roundDouble_mono (h0.trans h1) h2
  rw [hlo] at ha
  rw [hhi] at hb
  exact ⟨ha, hb⟩

theorem roundDouble_one : roundDouble 1 = 1 := by
  rw [roundDouble_eval 0 4503599627370496 (by norm_num) (by norm_num) (by norm_num)
    (by norm_num)]
  norm_num

theorem roundDouble_two : roundDouble 2 = 2 := by
  rw [roundDouble_eval 1 4503599627370496 (by norm_num) (by norm_num) (by norm_num)
    (by norm_num)]
  norm_num

theorem roundDouble_three : roundDouble 3 = 3 := by
  rw [roundDouble_eval 1 6755399441055744 (by norm_num) (by norm_num) (by norm_num)
    (by norm_num)]
  norm_num

theorem roundDouble_four : roundDouble 4 = 4 := by
  rw [roundDouble_eval 2 4503599627370496 (by norm_num) (by norm_num) (by norm_num)
    (by norm_num)]
  norm_num

theorem roundDouble_five : roundDouble 5 = 5 := by
  rw [roundDouble_eval 2 5629499534213120 (by norm_num) (by norm_num) (by norm_num)
    (by norm_num)]
  norm_num

theorem roundDouble_ten : roundDouble 10 = 10 := by
  rw [roundDouble_eval 3 5629499534213120 (by norm_num) (by norm_num) (by norm_num)
    (by norm_num)]
  norm_num

theorem roundDouble_fifteen : roundDouble 15 = 15 := by
  rw [roundDouble_eval 3 8444249301319680 (by norm_num) (by norm_num) (by norm_num)
    (by norm_num)]
  norm_num

theorem roundDouble_twenty : roundDouble 20 = 20 := by
  rw [roundDouble_eval 4 5629499534213120 (by norm_num) (by norm_num) (by norm_num)
    (by norm_num)]
  norm_num

theorem roundDouble_twentyfive : roundDouble 25 = 25 := by
  rw [roundDouble_eval 4 7036874417766400 (by norm_num) (by norm_num) (by norm_num)
    (by norm_num)]
  norm_num

/-- C28, counterexample: for a review whose five scores are all 1.62 the
additions are exact up to the fourth; the fifth sum is a tie and is rounded
up, and the quotient by 5 is rounded up again, so averageScore is the double
after 1.62, not the exact mean, which is 1.62. -/
theorem averageScore_not_exact_mean :
    inRange score162 ∧
    (reviewOdd.scores.clarity + reviewOdd.scores.quality + reviewOdd.scores.originality +
      reviewOdd.scores.technical + reviewOdd.scores.presentation) / 5 = score162 ∧
    reviewOdd.averageScore = 7295831396340205 / 4503599627370496 ∧
    reviewOdd.averageScore ≠
      (reviewOdd.scores.clarity + reviewOdd.scores.quality + reviewOdd.scores.originality +
        reviewOdd.scores.technical + reviewOdd.scores.presentation) / 5 := by
  have h1 : roundDouble (0 + score162) = score162 := by
    unfold score162
    rw [roundDouble_eval 0 7295831396340204 (by norm_num) (by norm_num) (by norm_num)
      (by norm_num)]
    norm_num
  have h2 : roundDouble (score162 + score162) = 2 * score162 := by
    unfold score162
    rw [roundDouble_eval 1 7295831396340204 (by norm_num) (by norm_num) (by norm_num)
      (by norm_num)]
    norm_num
  have h3 : roundDouble (2 * score162 + score162) = 3 * score162 := by
    unfold score162
    rw [roundDouble_eval 2 5471873547255153 (by norm_num) (by norm_num) (by norm_num)
      (by norm_num)]
    norm_num
  have h4 : roundDouble (3 * score162 + score162) = 4 * score162 := by
    unfold score162
    rw [roundDouble_eval 2 7295831396340204 (by norm_num) (by norm_num) (by norm_num)
      (by norm_num)]
    norm_num
  have h5 : roundDouble (4 * score162 + score162) =
      1139973655678157 / 140737488355328 := by
    unfold score162
    rw [roundDouble_eval 3 4559894622712627 (by norm_num) (by norm_num) (by norm_num)
      (by norm_num)]
    norm_num
  have h6 : roundDouble (1139973655678157 / 140737488355328 / ((5 : ℕ) : ℚ)) =
      7295831396340205 / 4503599627370496 := by
    rw [roundDouble_eval 0 7295831396340204 (by norm_num) (by norm_num) (by norm_num)
      (by norm_num)]
    norm_num
  have hval : reviewOdd.averageScore = 7295831396340205 / 4503599627370496 := by
    show roundDouble (roundDouble (roundDouble (roundDouble (roundDouble
      (roundDouble (0 + score162) + score162) + score162) + score162) + score162) /
      ((5 : ℕ) : ℚ)) = 7295831396340205 / 4503599627370496
    rw [h1, h2, h3, h4, h5, h6]
  have hmean : (reviewOdd.scores.clarity + reviewOdd.scores.quality +
      reviewOdd.scores.originality + reviewOdd.scores.technical +
      reviewOdd.scores.presentation) / 5 = score162 := by
    show (score162 + score162 + score162 + score162 + score162) / 5 = score162
    ring
  refine ⟨by norm_num [inRange, score162], hmean, hval, ?_⟩
  rw [hval, hmean]
  norm_num [score162]

/-- C28, amended: the averageScore virtual of a Review, the mean of its five
criterion scores computed in double arithmetic, lies between 1 and 5 whenever
each of the five scores does. -/
theorem averageScore_in_range (r : Review)
    (h1 : inRange r.scores.clarity) (h2 : inRange r.scores.quality)
    (h3 : inRange r.scores.originality) (h4 : inRange r.scores.technical)
    (h5 : inRange r.scores.presentation) : inRange r.averageScore := by
  unfold inRange at *
  have s1 := roundDouble_between roundDouble_one roundDouble_five (by norm_num)
    (x := 0 + r.scores.clarity) (by linarith) (by linarith)
  have s2 := roundDouble_between roundDouble_two roundDouble_ten (by norm_num)
    (x := roundDouble (0 + r.scores.clarity) + r.scores.quality) (by linarith) (by linarith)
  have s3 := roundDouble_between roundDouble_three roundDouble_fifteen (by norm_num)
    (x := roundDouble (roundDouble (0 + r.scores.clarity) + r.scores.quality) +
      r.scores.originality) (by linarith) (by linarith)
  have s4 := roundDouble_between roundDouble_four roundDouble_twenty (by norm_num)
    (x := roundDouble (roundDouble (roundDouble (0 + r.scores.clarity) + r.scores.quality) +
      r.scores.originality) + r.scores.technical) (by linarith) (by linarith)
  have s5 := roundDouble_between roundDouble_five roundDouble_twentyfive (by norm_num)
    (x := roundDouble (roundDouble (roundDouble (roundDouble (0 + r.scores.clarity) +
      r.scores.quality) + r.scores.originality) + r.scores.technical) +
      r.scores.presentation) (by linarith) (by linarith)
  show (1 : ℚ) ≤ roundDouble (roundDouble (roundDouble (roundDouble (roundDouble
      (roundDouble (0 + r.scores.clarity) + r.scores.quality) + r.scores.originality) +
      r.scores.technical) + r.scores.presentation) / ((5 : ℕ) : ℚ)) ∧
    roundDouble (roundDouble (roundDouble (roundDouble (roundDouble
      (roundDouble (0 + r.scores.clarity) + r.scores.quality) + r.scores.originality) +
      r.scores.technical) + r.scores.presentation) / ((5 : ℕ) : ℚ)) ≤ 5
  refine roundDouble_between roundDouble_one roundDouble_five (by norm_num) ?_ ?_
  · rw [le_div_iff₀ (by norm_num)]
    simp only [Nat.cast_ofNat]
    linarith [s5.1]
  · rw [div_le_iff₀ (by norm_num)]
    simp only [Nat.cast_ofNat]
    linarith [s5.2]

/-- The review of scenario 2, with scores 4, 5, 3, 4, 5, has its averageScore
between 1 and 5. -/
theorem averageScore_in_range_witness :
    inRange reviewB.scores.clarity ∧ inRange reviewB.scores.quality ∧
    inRange reviewB.scores.originality ∧ inRange reviewB.scores.technical ∧
    inRange reviewB.scores.presentation ∧ inRange reviewB.averageScore :=
  ⟨by norm_num [inRange, reviewB], by norm_num [inRange, reviewB],
    by norm_num [inRange, reviewB], by norm_num [inRange, reviewB],
    by norm_num [inRange, reviewB],
    averageScore_in_range reviewB (by norm_num [inRange, reviewB])
      (by norm_num [inRange, reviewB]) (by norm_num [inRange, reviewB])
      (by norm_num [inRange, reviewB]) (by norm_num [inRange, reviewB])⟩

/-- C29: for every tag list built by the tag handlers from the empty list in
which no tag contains a comma, the server's parsing of `tags.join(',')` gives
back exactly that list, in the same order, and the schema's trim of each
stored tag changes nothing (for a `toLowerCase` that keeps texts non-empty
and trimmed). -/
theorem tags_round_trip (toLowerCase : String → String)
    (hne : ∀ s, s ≠ "" → toLowerCase s ≠ "")
    (htrim : ∀ s, jsTrim s = s → jsTrim (toLowerCase s) = toLowerCase s)
    (actions : List TagAction)
    (hcomma : ∀ t ∈ applyTagActions toLowerCase [] actions, ',' ∉ t.data) :
    parseTags (some (joinComma (applyTagActions toLowerCase [] actions))) =
      applyTagActions toLowerCase [] actions ∧
    (parseTags (some (joinComma (applyTagActions toLowerCase [] actions)))).map jsTrim =
      applyTagActions toLowerCase [] actions := by
  have hform := (tagActions_invariant toLowerCase actions []
    ⟨List.nodup_nil, by simp, by simp⟩).2.2
  have h1 : ∀ t ∈ applyTagActions toLowerCase [] actions, t ≠ "" := by
    intro t ht
    obtain ⟨input, hin, rfl⟩ := hform t ht
    exact hne _ hin
  have h2 : ∀ t ∈ applyTagActions toLowerCase [] actions, jsTrim t = t := by
    intro t ht
    obtain ⟨input, hin, rfl⟩ := hform t ht
    exact htrim _ (jsTrim_jsTrim input)
  have hparse := parseTags_joinComma _ h1 h2 hcomma
  refine ⟨hparse, ?_⟩
  rw [hparse, List.map_congr_left h2, List.map_id']

/-- The sample session: the list "proof assistant", "math" is sent as
"proof assistant,math" and parsed back to the same list; the empty list is
sent as the empty string and parsed to the empty list. -/
theorem tags_round_trip_witness :
    (∀ s, s ≠ "" → asciiLower s ≠ "") ∧
    (∀ s, jsTrim s = s → jsTrim (asciiLower s) = asciiLower s) ∧
    (∀ t ∈ applyTagActions asciiLower [] sampleTagActions, ',' ∉ t.data) ∧
    joinComma (applyTagActions asciiLower [] sampleTagActions) = "proof assistant,math" ∧
    parseTags (some (joinComma [])) = [] ∧
    parseTags (some (joinComma (applyTagActions asciiLower [] sampleTagActions))) =
      applyTagActions asciiLower [] sampleTagActions :=
  ⟨asciiLower_ne_empty, asciiLower_trimmed, by decide, by decide, by decide,
    (tags_round_trip asciiLower asciiLower_ne_empty asciiLower_trimmed sampleTagActions
      (by decide)).1⟩

/-- C30, counterexample: project P is reviewed by four users; its reviewers list
has 4 entries while its maxReviewers is 3. -/
theorem four_reviewers_exceed_max :
    undisturbed ⟨[], []⟩ fourReviews = true ∧
    (run ⟨[], []⟩ fourReviews).projects.map
      (fun p => (p.id, p.reviewers, p.maxReviewers)) =
      [(1, [userB, userC, userD, userE], 3)] := by
  decide

/-- C30, amended: in every state reached from the empty store by project and
review submissions, the number of reviewers recorded on a project never
exceeds the number of Reviews stored for that project. -/
theorem reviewers_le_reviews (reqs : List Request) (p : Project)
    (hp : p ∈ (run ⟨[], []⟩ reqs).projects) :
    p.reviewers.length ≤ (reviewsFor (run ⟨[], []⟩ reqs) p.id).length := by
  obtain ⟨hnd, hback⟩ := reviewersBacked_run reqs _ reviewersBacked_empty p hp
  have hsub : p.reviewers ⊆
      (reviewsFor (run ⟨[], []⟩ reqs) p.id).map (fun r => r.reviewer) := by
    intro u hu
    obtain ⟨r, hr, h1, h2⟩ := hback u hu
    rw [List.mem_map]
    refine ⟨r, ?_, h2⟩
    simp [reviewsFor, List.mem_filter, hr, h1]
  have := (hnd.subperm hsub).length_le
  simpa using this

/-- After the four reviews of P its 4 reviewers are matched by 4 stored Reviews. -/
theorem reviewers_le_reviews_witness :
    { projP with reviewers := [userB, userC, userD, userE], updatedAt := 8 } ∈
      (run ⟨[], []⟩ fourReviews).projects ∧
    (reviewsFor (run ⟨[], []⟩ fourReviews) 1).length = 4 ∧
    [userB, userC, userD, userE].length ≤ (reviewsFor (run ⟨[], []⟩ fourReviews) 1).length :=
  ⟨by decide, by decide,
    reviewers_le_reviews fourReviews
      { projP with reviewers := [userB, userC, userD, userE], updatedAt := 8 } (by decide)⟩

end PeerReview
